import Mathlib

/-!
Shallow embedding of the goluna interpreter (a small dynamically typed
scripting language written in Go): tokenizer (tokenizer.go), AST (ast.go),
recursive-descent parser (parser.go), chained lexical environments
(environment.go), runtime values (values.go) and the tree-walking
evaluator (interpreter.go).

Modelling conventions, stated once here:
* Go strings and runes are modelled as `List Char` (`Str`).
* Go `float64` is modelled by `GoFloat`: an exact rational together with
  the special values plus/minus infinity and NaN.  Rounding of inexact
  results is not modelled; operations whose float result is irrational
  are idealized (no claim below depends on them).
* Go maps (`env.vars`, `env.constants`, object properties) are
  modelled as association lists in insertion order; Go map iteration
  order is unspecified, the list order fixes one admissible order.
* Pointer-backed mutable structures (`*Environment`, `*ArrayValue`,
  `*ObjectValue`) live in arenas inside a state `St`; a value holds the
  arena index, mirroring Go pointer sharing and in-place mutation.
* Go runtime panics (out-of-range indexing, failed type assertions) are
  a distinct outcome `.panic`, separate from `error` returns (`.err`).
* The mutually recursive Go functions are modelled by one
  fuel-indexed function `exec` over a `Task` inductive with one
  constructor per Go function/loop; fuel exhaustion is the distinct
  outcome `.timeout` (a model artifact: theorems either pick ample fuel
  or are conditional on a non-timeout result).
* Host-boundary features are not modelled because no claim depends on
  them: native functions (`NativeFunctionValue`, prototype.go method
  tables, whose member lookup would return native function values) and
  the actual printing done by `debug`.
-/

namespace Luna

/-- Strings of the interpreted language and of its source text, as rune lists. -/
abbrev Str := List Char

/-- Go float64, idealized: exact rationals plus the IEEE special values. -/
inductive GoFloat where
  | q (v : ℚ)
  | inf (pos : Bool)
  | nan
deriving DecidableEq

/-- Negation of a float (used by unary minus). -/
def negF : GoFloat → GoFloat
  | .q a => .q (-a)
  | .inf s => .inf (!s)
  | .nan => .nan

/-- Float addition (`leftVal + rightVal`). -/
def addF : GoFloat → GoFloat → GoFloat
  | .q a, .q b => .q (a + b)
  | .nan, _ => .nan
  | _, .nan => .nan
  | .inf s, .inf t => if s = t then .inf s else .nan
  | .inf s, .q _ => .inf s
  | .q _, .inf t => .inf t

/-- Float subtraction. -/
def subF (a b : GoFloat) : GoFloat := addF a (negF b)

/-- Float multiplication. -/
def mulF : GoFloat → GoFloat → GoFloat
  | .q a, .q b => .q (a * b)
  | .nan, _ => .nan
  | _, .nan => .nan
  | .inf s, .inf t => .inf (s = t)
  | .inf s, .q b => if b = 0 then .nan else .inf (s = decide (0 < b))
  | .q a, .inf t => if a = 0 then .nan else .inf (t = decide (0 < a))

/-- Float division; the divisor is known nonzero at the call site
(`evaluateBinaryOperation` returns positive infinity first when the raw
right operand equals zero). -/
def divF : GoFloat → GoFloat → GoFloat
  | .q a, .q b => if b = 0 then .nan else .q (a / b)
  | .nan, _ => .nan
  | _, .nan => .nan
  | .inf _, .inf _ => .nan
  | .inf s, .q b => .inf (s = decide (0 ≤ b))
  | .q _, .inf _ => .q 0

/-- Truncation toward zero, `int(x)` of Go (conversions of the special
values are implementation defined in Go and idealized here; the code
paths using them panic on the resulting out-of-range index anyway). -/
def truncF : GoFloat → Int
  | .q a => if 0 ≤ a then ⌊a⌋ else ⌈a⌉
  | .inf true => 2 ^ 63 - 1
  | .inf false => -(2 ^ 63)
  | .nan => -(2 ^ 63)

/-- math.Mod. -/
def modF : GoFloat → GoFloat → GoFloat
  | .q a, .q b => if b = 0 then .nan else .q (a - b * (truncF (.q (a / b)) : ℚ))
  | .q a, .inf _ => .q a
  | _, _ => .nan

/-- math.Pow, idealized: integer exponents are exact, irrational results
are collapsed to NaN (unused by every claim). -/
def powF : GoFloat → GoFloat → GoFloat
  | .q a, .q b =>
      if b = 0 then .q 1
      else if b.den = 1 then
        if a = 0 then (if 0 < b.num then .q 0 else .inf true)
        else .q (a ^ b.num)
      else .nan
  | _, _ => .nan

/-- Float equality, `==` of Go (NaN is unequal to everything). -/
def eqF : GoFloat → GoFloat → Bool
  | .q a, .q b => a = b
  | .inf s, .inf t => s = t
  | _, _ => false

/-- Float strict order, `<` of Go. -/
def ltF : GoFloat → GoFloat → Bool
  | .q a, .q b => a < b
  | .inf s, .inf t => !s && t
  | .inf s, .q _ => !s
  | .q _, .inf t => t
  | _, _ => false

/-- Float `<=` of Go. -/
def leF (a b : GoFloat) : Bool := ltF a b || eqF a b

/-- NumberValue.IsTruthy: nonzero and not NaN. -/
def truthyF : GoFloat → Bool
  | .q a => a ≠ 0
  | .inf _ => true
  | .nan => false

/-- Whether `n.Value == float64(int64(n.Value))` holds (integral float). -/
def isIntF : GoFloat → Bool
  | .q a => a.den = 1
  | _ => false

/-- NumberValue.String / fmt of a float64.  Integral values print like
FormatInt; the decimal rendering of non-integral values is idealized
(no claim depends on it). -/
def renderF : GoFloat → Str
  | .q a => if a.den = 1 then (toString a.num).data else (toString a).data
  | .inf true => juxInfP
  | .inf false => juxInfN
  | .nan => juxNaN
where
  juxInfP : Str := ['+', 'I', 'n', 'f']
  juxInfN : Str := ['-', 'I', 'n', 'f']
  juxNaN : Str := ['N', 'a', 'N']

/-- AST node kinds; the `Statement`/`Expression` interfaces of ast.go are
collapsed into one inductive (Go also treats them uniformly through the
`Statement` interface consumed by `Evaluate`).  A function parameter is a
pair of its name and its optional default-value expression. -/
inductive Node where
  | program (body : List Node)
  | numLit (v : GoFloat)
  | strLit (v : Str)
  | boolLit (b : Bool)
  | undefLit
  | nullLit
  | ident (name : Str)
  | arrayLit (elems : List Node)
  | objectLit (props : List (Str × Node))
  | binary (l r : Node) (op : Str)
  | unary (v : Node) (op : Str)
  | assign (assigne value : Node)
  | actionAssign (assigne value : Node) (action : Str)
  | call (caller : Node) (args : List Node)
  | member (obj prop : Node) (computed : Bool)
  | ternary (cond cons alt : Node)
  | typeofE (v : Node)
  | equality (l r : Node) (op : Str)
  | inequality (l r : Node) (op : Str)
  | logical (l r : Node) (op : Str)
  | fnDecl (name : Str) (params : List (Str × Option Node)) (body : List Node) (exported : Bool)
  | ifStmt (test : Node) (cons alt : List Node)
  | whileStmt (test : Node) (cons : List Node)
  | forStmt (decl test inc : Node) (body : List Node)
  | retExpr (v : Node)
  | debugStmt (props : List Node)
  | useStmt (path : Str)

/-- Runtime values (values.go).  `arr`/`obj` hold arena indices into the
state, mirroring `*ArrayValue`/`*ObjectValue` pointers; `closure` mirrors
`FunctionValue` with its captured declaration-environment index.
`retV` is the internal return-signal wrapper `ReturnValue`. -/
inductive Value where
  | null
  | undef
  | void
  | num (v : GoFloat)
  | bool (b : Bool)
  | str (s : Str)
  | arr (ref : Nat)
  | obj (ref : Nat)
  | closure (name : Str) (params : List (Str × Option Node)) (body : List Node)
      (declEnv : Nat) (exported anonymous : Bool)
  | retV (v : Value)

/-- ValueType tags (the `Type()` method), as strings. -/
def typeName : Value → Str
  | .null => ['n', 'u', 'l', 'l']
  | .undef => ['u', 'n', 'd', 'e', 'f']
  | .void => ['v', 'o', 'i', 'd']
  | .num _ => ['n', 'u', 'm', 'b', 'e', 'r']
  | .bool _ => ['b', 'o', 'o', 'l', 'e', 'a', 'n']
  | .str _ => ['s', 't', 'r', 'i', 'n', 'g']
  | .arr _ => ['a', 'r', 'r', 'a', 'y']
  | .obj _ => ['o', 'b', 'j', 'e', 'c', 't']
  | .closure _ _ _ _ _ _ => ['f', 'u', 'n', 'c', 't', 'i', 'o', 'n']
  | .retV _ => ['r', 'e', 't', 'u', 'r', 'n']

/-- One environment record (environment.go): optional parent pointer
(arena index), the name-to-value map and the constant-name set. -/
structure Env where
  parent : Option Nat
  vars : List (Str × Value)
  constants : List Str

/-- Interpreter state: the arena of environment records plus the heaps
backing `*ArrayValue` and `*ObjectValue`. -/
structure St where
  envs : List Env
  arrays : List (List Value)
  objects : List (List (Str × Value))

/-- Map update, `m[name] = value` on an association list: replaces the
first binding of the key or appends a new one. -/
def mapSet (n : Str) (v : Value) : List (Str × Value) → List (Str × Value)
  | [] => [(n, v)]
  | (k, w) :: t => if k = n then (n, v) :: t else (k, w) :: mapSet n v t

/-- Map lookup on an association list. -/
def mapGet (n : Str) : List (Str × Value) → Option Value
  | [] => none
  | (k, w) :: t => if k = n then some w else mapGet n t

/-- NewEnvironment: allocates a fresh record in the arena and returns its
index. -/
def newEnvironment (parent : Option Nat) (st : St) : Nat × St :=
  (st.envs.length, { st with envs := st.envs ++ [⟨parent, [], []⟩] })

/-- DeclareVar: unconditionally (re)binds in the local map of `e`,
optionally marking the name constant.  (The Go method also returns the
value; the callers use that value, which is threaded separately here.) -/
def DeclareVar (st : St) (e : Nat) (name : Str) (v : Value) (isConstant : Bool) : St :=
  match st.envs[e]? with
  | none => st
  | some env =>
      let env2 : Env :=
        { env with
          vars := mapSet name v env.vars
          constants := if isConstant then
              (if name ∈ env.constants then env.constants else name :: env.constants)
            else env.constants }
      { st with envs := st.envs.set e env2 }

/-- The parent-chain walk of AssignVar: find the first environment in the
chain from `e` that binds `name` and mutate it there; if none does,
declare in `e` itself.  The fuel bounds the walk (`e + 1` suffices for
the acyclic, parent-index-decreasing chains built by `newEnvironment`). -/
def assignChain (st : St) (name : Str) (v : Value) (e : Nat) : Nat → Option Nat → St
  | _, none =>
      -- not found anywhere: declare in the environment assign was called on
      match st.envs[e]? with
      | none => st
      | some env =>
          let env2 : Env := { env with vars := mapSet name v env.vars }
          { st with envs := st.envs.set e env2 }
  | 0, some _ => st
  | fuel + 1, some c =>
      match st.envs[c]? with
      | none => st
      | some env =>
          match mapGet name env.vars with
          | some _ =>
              let env2 : Env := { env with vars := mapSet name v env.vars }
              { st with envs := st.envs.set c env2 }
          | none => assignChain st name v e fuel env.parent

/-- AssignVar (environment.go): the constant check consults only the
constants set of the environment the method is called on; otherwise the
chain is searched for an existing binding, else a new local binding is
made.  (The Go method also returns the value unchanged.) -/
def AssignVar (st : St) (e : Nat) (name : Str) (v : Value) : St :=
  match st.envs[e]? with
  | none => st
  | some env =>
      if name ∈ env.constants then st
      else assignChain st name v e (e + 1) (some e)

/-- The parent-chain walk of LookupVar. -/
def lookupChain (st : St) (name : Str) : Nat → Option Nat → Value
  | _, none => .undef
  | 0, some _ => .undef
  | fuel + 1, some c =>
      match st.envs[c]? with
      | none => .undef
      | some env =>
          match mapGet name env.vars with
          | some v => v
          | none => lookupChain st name fuel env.parent

/-- LookupVar: searches self then the parent chain, returning the
undefined value rather than failing when the name is absent. -/
def LookupVar (st : St) (e : Nat) (name : Str) : Value :=
  lookupChain st name (e + 1) (some e)

/-- The parent-chain walk of HasVar. -/
def hasChain (st : St) (name : Str) : Nat → Option Nat → Bool
  | _, none => false
  | 0, some _ => false
  | fuel + 1, some c =>
      match st.envs[c]? with
      | none => false
      | some env =>
          match mapGet name env.vars with
          | some _ => true
          | none => hasChain st name fuel env.parent

/-- HasVar: existence check across the chain. -/
def HasVar (st : St) (e : Nat) (name : Str) : Bool :=
  hasChain st name (e + 1) (some e)

/-- The local variable map of environment `e` (the `env.variables` field
ranged over by string interpolation; parent scopes excluded). -/
def envVars (st : St) (e : Nat) : List (Str × Value) :=
  match st.envs[e]? with
  | some env => env.vars
  | none => []

/-- isEqual (interpreter.go): different type tags are unequal; number,
boolean and string compare by underlying value; null, undef and void are
mutually equal within the same tag; every remaining case (arrays,
objects, functions, return wrappers) is the default `false`. -/
def isEqual : Value → Value → Bool
  | .num a, .num b => eqF a b
  | .bool a, .bool b => a = b
  | .str a, .str b => a = b
  | .null, .null => true
  | .undef, .undef => true
  | .void, .void => true
  | _, _ => false

/-- IsTruthy of each value variant (values.go); arrays/objects are truthy
when nonempty, which reads the heap. -/
def isTruthy (st : St) : Value → Bool
  | .null => false
  | .undef => false
  | .void => false
  | .num n => truthyF n
  | .bool b => b
  | .str s => !s.isEmpty
  | .arr ref => decide (0 < (st.arrays[ref]?.getD []).length)
  | .obj ref => decide (0 < (st.objects[ref]?.getD []).length)
  | .closure _ _ _ _ _ _ => true
  | .retV v => isTruthy st v

/-- strings.Join with a separator. -/
def joinSep (sep : Str) : List Str → Str
  | [] => []
  | [x] => x
  | x :: y :: t => x ++ sep ++ joinSep sep (y :: t)

/-- FunctionValue.String (values.go): parameter list rendering and the
fn/lambda header. -/
def closureStr (name : Str) (params : List (Str × Option Node)) (anonymous : Bool) : Str :=
  let ps := joinSep [' '] (params.map fun p =>
    match p.2 with
    | some _ => p.1 ++ ['=', '(', '.', '.', '.', ')']
    | none => p.1)
  if anonymous then
    ['l', 'a', 'm', 'b', 'd', 'a', ' '] ++ ps ++ [' ', '{', ' ', '.', '.', '.', ' ', '}']
  else
    ['f', 'n', ' '] ++ name ++ [' '] ++ ps ++ [' ', '{', ' ', '.', '.', '.', ' ', '}']

/-- The String() display of a value (values.go): strings print quoted,
void prints empty, arrays/objects recurse through the heap (fueled, since
heap references can be cyclic; Go would not terminate there either). -/
def displayValue : Nat → St → Value → Str
  | _, _, .null => ['n', 'u', 'l', 'l']
  | _, _, .undef => ['u', 'n', 'd', 'e', 'f']
  | _, _, .void => []
  | _, _, .num n => renderF n
  | _, _, .bool b => if b then ['t', 'r', 'u', 'e'] else ['f', 'a', 'l', 's', 'e']
  | _, _, .str s => '\'' :: s ++ ['\'']
  | _, _, .closure name params _ _ _ anonymous => closureStr name params anonymous
  | fuel + 1, st, .arr ref =>
      '[' :: joinSep [',', ' '] ((st.arrays[ref]?.getD []).map (displayValue fuel st)) ++ [']']
  | fuel + 1, st, .obj ref =>
      '{' :: joinSep [',', ' ']
        ((st.objects[ref]?.getD []).map fun p => p.1 ++ [':', ' '] ++ displayValue fuel st p.2)
        ++ ['}']
  | fuel + 1, st, .retV v => displayValue fuel st v
  | 0, _, .arr _ => []
  | 0, _, .obj _ => []
  | 0, _, .retV _ => []

/-- The raw string contents for string values, the display string for
everything else: the rendering used both by string interpolation and by
the string-concatenation branch of `+`. -/
def rawOrDisplay (fuel : Nat) (st : St) : Value → Str
  | .str s => s
  | v => displayValue fuel st v

/-- strings.Contains: whether `pat` occurs as a contiguous substring. -/
def hasInfix (pat : Str) : Str → Bool
  | [] => decide (pat = [])
  | c :: t => decide (pat <+: c :: t) || hasInfix pat t

/-- Prepend a character onto the first chunk of a split. -/
def consHead (c : Char) : List Str → List Str
  | [] => [[c]]
  | h :: t => (c :: h) :: t

/-- Fueled scan of strings.Split: at each position, if the (nonempty)
pattern starts here, cut and skip it, else keep the character in the
current chunk.  The fuel only needs to exceed the string length. -/
def splitOnAux (pat : Str) : Nat → Str → List Str
  | 0, s => [s]
  | _ + 1, [] => [[]]
  | fuel + 1, c :: rest =>
      if pat ≠ [] ∧ pat <+: c :: rest then
        [] :: splitOnAux pat fuel ((c :: rest).drop pat.length)
      else consHead c (splitOnAux pat fuel rest)

/-- strings.Split for a nonempty separator: cut the string around each
leftmost non-overlapping occurrence of `pat`. -/
def splitOn (pat s : Str) : List Str := splitOnAux pat (s.length + 1) s

/-- strings.ReplaceAll for a nonempty pattern: replace each leftmost
non-overlapping occurrence of `pat` by `rep` (equivalently, join the
split chunks with `rep`; the interpreter only calls it with the nonempty
pattern `{name}`). -/
def replaceAll (pat rep s : Str) : Str := joinSep rep (splitOn pat s)

/-- The interpolation loop of evaluateStringLiteral (interpreter.go): for
each locally bound name, if `{name}` occurs in the partial result, every
occurrence is replaced by the variable's rendering.  The association-list
order stands in for Go's unspecified map iteration order. -/
def interpolate (fuel : Nat) (st : St) (locals : List (Str × Value)) (text : Str) : Str :=
  locals.foldl (fun r p =>
    let placeholder := '{' :: p.1 ++ ['}']
    if hasInfix placeholder r then replaceAll placeholder (rawOrDisplay fuel st p.2) r
    else r) text

/-- Go runtime panics reachable in the evaluator: out-of-range slice
indexing and failed interface type assertions.  A panic crashes the
interpreter process; it is not an error return. -/
inductive GoPanic where
  | indexOutOfRange
  | typeAssertion
deriving DecidableEq

/-- The fmt.Errorf failures of the evaluator, one constructor per
message site of interpreter.go (the message text itself carries no
semantics a claim depends on). -/
inductive EvalErr where
  | unsupportedNode
  | unsupportedBinaryOp
  | postfixNonIdentifier
  | postfixNonNumber
  | prefixIncNonIdentifier
  | prefixDecNonIdentifier
  | incNonNumber
  | decNonNumber
  | cannotNegate
  | unaryPlusNonNumber
  | unsupportedUnaryOp
  | cannotAssignNonObject
  | invalidAssignmentTarget
  | unsupportedAction
  | cannotCallNonFunction
  | defaultParamError
  | invalidPropertyKeyType
  | invalidPropertyAccess
  | unsupportedEqualityOp
  | compareNonNumeric
  | unsupportedInequalityOp
  | unsupportedLogicalOp
deriving DecidableEq

/-- Outcome of an evaluator step: a value with the updated state, the
auxiliary list-shaped results used by the argument/property loops, a
returned Go error, a Go panic, or fuel exhaustion (model artifact). -/
inductive Res where
  | ok (v : Value) (st : St)
  | okL (vs : List Value) (st : St)
  | okP (ps : List (Str × Value)) (st : St)
  | okS (st : St)
  | err (e : EvalErr)
  | panic (p : GoPanic)
  | timeout

/-- evaluateBinaryOperation (interpreter.go): numeric arithmetic with the
division-by-zero-gives-positive-infinity special case, then string
concatenation when `+` sees at least one string operand, else an error. -/
def evaluateBinaryOperation (fuel : Nat) (st : St) (left right : Value) (op : Str) :
    Except EvalErr Value :=
  match left, right with
  | .num a, .num b =>
      if op = ['+'] then .ok (.num (addF a b))
      else if op = ['-'] then .ok (.num (subF a b))
      else if op = ['*'] then .ok (.num (mulF a b))
      else if op = ['/'] then
        (if eqF b (.q 0) then .ok (.num (.inf true)) else .ok (.num (divF a b)))
      else if op = ['%'] then .ok (.num (modF a b))
      else if op = ['*', '*'] then .ok (.num (powF a b))
      else .error .unsupportedBinaryOp
  | l, r =>
      if op = ['+'] ∧ (isStr l || isStr r) then
        .ok (.str (rawOrDisplay fuel st l ++ rawOrDisplay fuel st r))
      else .error .unsupportedBinaryOp
where
  isStr : Value → Bool
  | .str _ => true
  | _ => false

/-- The operator dispatch of evaluateEqualityExpression after both
operands are evaluated. -/
def equalityCase (l r : Value) (op : Str) : Except EvalErr Value :=
  if op = ['=', '='] then .ok (.bool (isEqual l r))
  else if op = ['!', '='] then .ok (.bool (!isEqual l r))
  else .error .unsupportedEqualityOp

/-- The type check and operator dispatch of
evaluateInequalityExpression after both operands are evaluated. -/
def inequalityCase (l r : Value) (op : Str) : Except EvalErr Value :=
  match l, r with
  | .num a, .num b =>
      if op = ['<'] then .ok (.bool (ltF a b))
      else if op = ['>'] then .ok (.bool (ltF b a))
      else if op = ['<', '='] then .ok (.bool (leF a b))
      else if op = ['>', '='] then .ok (.bool (leF b a))
      else .error .unsupportedInequalityOp
  | _, _ => .error .compareNonNumeric

/-- strconv digits (no sign). -/
def parseDigitsAux (acc : Nat) : Str → Option Nat
  | [] => some acc
  | c :: t => if c.isDigit then parseDigitsAux (acc * 10 + (c.toNat - 48)) t else none

/-- Nonempty digit string to a natural number. -/
def parseDigits : Str → Option Nat
  | [] => none
  | s => parseDigitsAux 0 s

/-- strconv.Atoi: optional sign then digits. -/
def parseIntStr : Str → Option Int
  | '-' :: t => (parseDigits t).map (fun n => -(n : Int))
  | '+' :: t => (parseDigits t).map (fun n => (n : Int))
  | s => (parseDigits s).map (fun n => (n : Int))

/-- strconv.ParseFloat restricted to the shapes the lexer emits: digits
with at most one decimal point (a trailing point is allowed). -/
def parseNumQ (s : Str) : Option GoFloat :=
  let ip := s.takeWhile (fun c => c ≠ '.')
  let rest := s.dropWhile (fun c => c ≠ '.')
  match rest with
  | [] => (parseDigits ip).map (fun n => .q n)
  | '.' :: frac =>
      match parseDigits ip, (if frac = [] then some 0 else parseDigits frac) with
      | some i, some f => some (.q ((i : ℚ) + (f : ℚ) / (10 : ℚ) ^ frac.length))
      | _, _ => none
  | _ => none

/-- The member-assignment step of evaluateAssignmentExpression after the
object, property and value have been evaluated: objects upsert under the
string (or number-formatted) key; arrays index with the truncated number
and Go panics when the index is out of range (there is no bounds check in
the source); other targets return the cannot-assign error.  Failed type
assertions on the property also panic. -/
def assignMember (st : St) (object property v : Value) : Res :=
  match object with
  | .obj ref =>
      match st.objects[ref]? with
      | none => .panic .typeAssertion   -- unreachable: obj values reference live heap entries
      | some props =>
          match property with
          | .str s => .ok v { st with objects := st.objects.set ref (mapSet s v props) }
          | .num q => .ok v { st with objects := st.objects.set ref (mapSet (renderF q) v props) }
          | _ => .panic .typeAssertion
  | .arr ref =>
      match st.arrays[ref]? with
      | none => .panic .typeAssertion   -- unreachable: arr values reference live heap entries
      | some elems =>
          match property with
          | .num q =>
              let index := truncF q
              if 0 ≤ index ∧ index.toNat < elems.length then
                .ok v { st with arrays := st.arrays.set ref (elems.set index.toNat v) }
              else .panic .indexOutOfRange
          | _ => .panic .typeAssertion
  | _ => .err .cannotAssignNonObject

/-- The member-read step of evaluateMemberExpression after the object and
the string key are known: arrays resolve integer keys in range to the
element; object properties are looked up by key; every unresolved case
falls back to the per-variant prototype method table (prototype.go, which
returns native function values) - that host boundary is not modelled, so
the fallback is the undefined value the Go code returns when no
prototype method matches either. -/
def memberRead (st : St) (object : Value) (key : Str) : Res :=
  match object with
  | .arr ref =>
      let elems := st.arrays[ref]?.getD []
      match parseIntStr key with
      | some idx =>
          if 0 ≤ idx ∧ idx.toNat < elems.length then .ok (elems[idx.toNat]?.getD .undef) st
          else .ok .undef st
      | none => .ok .undef st
  | .obj ref =>
      match mapGet key (st.objects[ref]?.getD []) with
      | some v => .ok v st
      | none => .ok .undef st
  | _ => .ok .undef st

/-- One constructor per mutually recursive function/loop of
interpreter.go: `ev` is Evaluate; `evProgram` the statement loop of
evaluateProgram; `evSeq` the argument/element loops; `evProps` the
object-literal loop; `runBlock` the (identical) inline body loops of
if/while/for; `callBody` the body loop of callFunction; `whileLoop` and
`forLoop` the iteration of evaluateWhileStatement/evaluateForStatement;
`bindParams` the parameter-binding loop of callFunction. -/
inductive Task where
  | ev (node : Node) (env : Nat)
  | evProgram (body : List Node) (env : Nat) (lastV : Value)
  | evSeq (nodes : List Node) (env : Nat)
  | evProps (props : List (Str × Node)) (env : Nat) (acc : List (Str × Value))
  | runBlock (stmts : List Node) (env : Nat) (acc : Value)
  | callBody (stmts : List Node) (env : Nat) (acc : Value)
  | whileLoop (test : Node) (body : List Node) (env : Nat) (acc : Value)
  | forLoop (test inc : Node) (body : List Node) (env : Nat) (acc : Value)
  | bindParams (params : List (Str × Option Node)) (args : List Value) (fnEnv declEnv : Nat)

/-- The evaluator (interpreter.go), fuel-indexed: every recursive call of
the Go original decrements the fuel once. -/
def exec : Nat → Task → St → Res
  | 0, _, _ => .timeout
  | fuel + 1, task, st =>
    match task with
    | .ev node env =>
      match node with
      | .program body => exec fuel (.evProgram body env .void) st
      | .numLit v => .ok (.num v) st
      | .strLit v =>
          if hasInfix ['{'] v then
            .ok (.str (interpolate fuel st (envVars st env) v)) st
          else .ok (.str v) st
      | .boolLit b => .ok (.bool b) st
      | .undefLit => .ok .undef st
      | .nullLit => .ok .null st
      | .ident n => .ok (LookupVar st env n) st
      | .arrayLit elems =>
          match exec fuel (.evSeq elems env) st with
          | .okL vs st1 => .ok (.arr st1.arrays.length) { st1 with arrays := st1.arrays ++ [vs] }
          | r => r
      | .objectLit props =>
          match exec fuel (.evProps props env []) st with
          | .okP ps st1 => .ok (.obj st1.objects.length) { st1 with objects := st1.objects ++ [ps] }
          | r => r
      | .binary l r op =>
          match exec fuel (.ev l env) st with
          | .ok lv st1 =>
              match exec fuel (.ev r env) st1 with
              | .ok rv st2 =>
                  match evaluateBinaryOperation fuel st2 lv rv op with
                  | .ok v => .ok v st2
                  | .error e => .err e
              | r2 => r2
          | r1 => r1
      | .unary v op =>
          if op = ['+', '+', '_', 'p', 'o', 's', 't'] ∨ op = ['-', '-', '_', 'p', 'o', 's', 't'] then
            match v with
            | .ident n =>
                match LookupVar st env n with
                | .num oldVal =>
                    let newVal :=
                      if op = ['+', '+', '_', 'p', 'o', 's', 't'] then addF oldVal (.q 1)
                      else subF oldVal (.q 1)
                    .ok (.num oldVal) (AssignVar st env n (.num newVal))
                | _ => .err .postfixNonNumber
            | _ => .err .postfixNonIdentifier
          else if op = ['!'] then
            match exec fuel (.ev v env) st with
            | .ok val st1 => .ok (.bool (!isTruthy st1 val)) st1
            | r => r
          else if op = ['-'] then
            match exec fuel (.ev v env) st with
            | .ok val st1 =>
                match val with
                | .num n => .ok (.num (negF n)) st1
                | _ => .err .cannotNegate
            | r => r
          else if op = ['+'] then
            match exec fuel (.ev v env) st with
            | .ok val st1 =>
                match val with
                | .num _ => .ok val st1
                | _ => .err .unaryPlusNonNumber
            | r => r
          else if op = ['+', '+'] then
            match v with
            | .ident n =>
                match LookupVar st env n with
                | .num oldVal =>
                    let newVal := addF oldVal (.q 1)
                    .ok (.num newVal) (AssignVar st env n (.num newVal))
                | _ => .err .incNonNumber
            | _ => .err .prefixIncNonIdentifier
          else if op = ['-', '-'] then
            match v with
            | .ident n =>
                match LookupVar st env n with
                | .num oldVal =>
                    let newVal := subF oldVal (.q 1)
                    .ok (.num newVal) (AssignVar st env n (.num newVal))
                | _ => .err .decNonNumber
            | _ => .err .prefixDecNonIdentifier
          else .err .unsupportedUnaryOp
      | .assign assigne value =>
          match assigne with
          | .ident n =>
              match exec fuel (.ev value env) st with
              | .ok v st1 =>
                  if HasVar st1 env n then .ok v (AssignVar st1 env n v)
                  else .ok v (DeclareVar st1 env n v false)
              | r => r
          | .member mobj mprop _ =>
              match exec fuel (.ev mobj env) st with
              | .ok objectV st1 =>
                  -- the property node is inspected by Kind, not by the computed flag
                  let propRes : Res :=
                    match mprop with
                    | .ident pn => .ok (.str pn) st1
                    | _ => exec fuel (.ev mprop env) st1
                  match propRes with
                  | .ok property st2 =>
                      match exec fuel (.ev value env) st2 with
                      | .ok v st3 => assignMember st3 objectV property v
                      | r => r
                  | r => r
              | r => r
          | _ => .err .invalidAssignmentTarget
      | .actionAssign assigne value action =>
          match assigne with
          | .ident n =>
              match exec fuel (.ev value env) st with
              | .ok v st1 =>
                  if action = ['c', 'o', 'n', 's', 't'] then .ok v (DeclareVar st1 env n v true)
                  else if action = ['v', 'a', 'r'] then .ok v (DeclareVar st1 env n v false)
                  else if action = ['o', 'u', 't'] then .ok v (DeclareVar st1 env n v false)
                  else .err .unsupportedAction
              | r => r
          | _ => .err .invalidAssignmentTarget
      | .call caller args =>
          match exec fuel (.ev caller env) st with
          | .ok fn st1 =>
              match exec fuel (.evSeq args env) st1 with
              | .okL argVals st2 =>
                  match fn with
                  | .closure _ params body declEnv _ _ =>
                      -- callFunction: fresh child of the declaration environment
                      let p := newEnvironment (some declEnv) st2
                      match exec fuel (.bindParams params argVals p.1 declEnv) p.2 with
                      | .okS st4 => exec fuel (.callBody body p.1 .void) st4
                      | r => r
                  | _ => .err .cannotCallNonFunction
              | r => r
          | r => r
      | .member mobj mprop computed =>
          match exec fuel (.ev mobj env) st with
          | .ok objectV st1 =>
              let keyRes : Res :=
                if computed then
                  match exec fuel (.ev mprop env) st1 with
                  | .ok p st2 =>
                      match p with
                      | .str s => .ok (.str s) st2
                      | .num q => .ok (.str (renderF q)) st2
                      | _ => .err .invalidPropertyKeyType
                  | r => r
                else
                  match mprop with
                  | .ident pn => .ok (.str pn) st1
                  | _ => .err .invalidPropertyAccess
              match keyRes with
              | .ok (.str key) st2 => memberRead st2 objectV key
              | r => r
          | r => r
      | .ternary cond cons alt =>
          match exec fuel (.ev cond env) st with
          | .ok c st1 =>
              if isTruthy st1 c then exec fuel (.ev cons env) st1
              else exec fuel (.ev alt env) st1
          | r => r
      | .typeofE v =>
          match exec fuel (.ev v env) st with
          | .ok val st1 => .ok (.str (typeName val)) st1
          | r => r
      | .equality l r op =>
          match exec fuel (.ev l env) st with
          | .ok lv st1 =>
              match exec fuel (.ev r env) st1 with
              | .ok rv st2 =>
                  match equalityCase lv rv op with
                  | .ok v => .ok v st2
                  | .error e => .err e
              | r2 => r2
          | r1 => r1
      | .inequality l r op =>
          match exec fuel (.ev l env) st with
          | .ok lv st1 =>
              match exec fuel (.ev r env) st1 with
              | .ok rv st2 =>
                  match inequalityCase lv rv op with
                  | .ok v => .ok v st2
                  | .error e => .err e
              | r2 => r2
          | r1 => r1
      | .logical l r op =>
          match exec fuel (.ev l env) st with
          | .ok lv st1 =>
              if op = ['&', '&'] then
                if !isTruthy st1 lv then .ok lv st1 else exec fuel (.ev r env) st1
              else if op = ['|', '|'] then
                if isTruthy st1 lv then .ok lv st1 else exec fuel (.ev r env) st1
              else .err .unsupportedLogicalOp
          | r1 => r1
      | .fnDecl name params body exported =>
          let anonymous := name.isEmpty
          let fn : Value := .closure name params body env exported anonymous
          if anonymous then .ok fn st
          else .ok fn (DeclareVar st env name fn true)
      | .ifStmt test cons alt =>
          match exec fuel (.ev test env) st with
          | .ok c st1 =>
              if isTruthy st1 c then exec fuel (.runBlock cons env .void) st1
              else if 0 < alt.length then exec fuel (.runBlock alt env .void) st1
              else .ok .void st1
          | r => r
      | .whileStmt test cons => exec fuel (.whileLoop test cons env .void) st
      | .forStmt decl test inc body =>
          let p := newEnvironment (some env) st
          match exec fuel (.ev decl p.1) p.2 with
          | .ok _ st2 => exec fuel (.forLoop test inc body p.1 .void) st2
          | r => r
      | .retExpr v =>
          match exec fuel (.ev v env) st with
          | .ok val st1 => .ok (.retV val) st1
          | r => r
      | .debugStmt props =>
          match exec fuel (.evSeq props env) st with
          | .okL _ st1 => .ok .void st1   -- the actual printing is a host side effect
          | r => r
      | .useStmt _ =>
          -- the Evaluate switch has no UseStatement case: the default
          -- branch returns the unsupported-AST-node error
          .err .unsupportedNode
    | .evProgram body env lastV =>
        match body with
        | [] => .ok lastV st
        | s :: rest =>
            match exec fuel (.ev s env) st with
            | .ok v st1 => exec fuel (.evProgram rest env v) st1
            | r => r
    | .evSeq nodes env =>
        match nodes with
        | [] => .okL [] st
        | n :: rest =>
            match exec fuel (.ev n env) st with
            | .ok v st1 =>
                match exec fuel (.evSeq rest env) st1 with
                | .okL vs st2 => .okL (v :: vs) st2
                | r => r
            | r => r
    | .evProps props env acc =>
        match props with
        | [] => .okP acc st
        | (k, pv) :: rest =>
            match exec fuel (.ev pv env) st with
            | .ok v st1 => exec fuel (.evProps rest env (mapSet k v acc)) st1
            | r => r
    | .runBlock stmts env acc =>
        match stmts with
        | [] => .ok acc st
        | s :: rest =>
            match exec fuel (.ev s env) st with
            | .ok v st1 =>
                match v with
                | .retV rv => .ok (.retV rv) st1
                | _ => exec fuel (.runBlock rest env v) st1
            | r => r
    | .callBody stmts env acc =>
        match stmts with
        | [] => .ok acc st
        | s :: rest =>
            match exec fuel (.ev s env) st with
            | .ok v st1 =>
                match v with
                | .retV rv => .ok rv st1
                | _ => exec fuel (.callBody rest env v) st1
            | r => r
    | .whileLoop test body env acc =>
        match exec fuel (.ev test env) st with
        | .ok c st1 =>
            if !isTruthy st1 c then .ok acc st1
            else
              match exec fuel (.runBlock body env acc) st1 with
              | .ok v st2 =>
                  match v with
                  | .retV rv => .ok (.retV rv) st2
                  | _ => exec fuel (.whileLoop test body env v) st2
              | r => r
        | r => r
    | .forLoop test inc body env acc =>
        match exec fuel (.ev test env) st with
        | .ok c st1 =>
            if !isTruthy st1 c then .ok acc st1
            else
              match exec fuel (.runBlock body env acc) st1 with
              | .ok v st2 =>
                  match v with
                  | .retV rv => .ok (.retV rv) st2
                  | _ =>
                      match exec fuel (.ev inc env) st2 with
                      | .ok _ st3 => exec fuel (.forLoop test inc body env v) st3
                      | r => r
              | r => r
        | r => r
    | .bindParams params args fnEnv declEnv =>
        match params with
        | [] => .okS st
        | (pname, pdefault) :: rest =>
            match args with
            | a :: argsRest =>
                exec fuel (.bindParams rest argsRest fnEnv declEnv)
                  (DeclareVar st fnEnv pname a false)
            | [] =>
                match pdefault with
                | some dexpr =>
                    -- defaults are evaluated in the function's declaration environment
                    match exec fuel (.ev dexpr declEnv) st with
                    | .ok dv st1 =>
                        exec fuel (.bindParams rest [] fnEnv declEnv)
                          (DeclareVar st1 fnEnv pname dv false)
                    | .err _ => .err .defaultParamError
                    | r => r
                | none =>
                    exec fuel (.bindParams rest [] fnEnv declEnv)
                      (DeclareVar st fnEnv pname .undef false)

/-- Evaluate (interpreter.go): run one AST node against an environment. -/
def Evaluate (fuel : Nat) (node : Node) (env : Nat) (st : St) : Res :=
  exec fuel (.ev node env) st

/-- Token kinds (tokenizer.go). -/
inductive TokType where
  | identifier | string | int | float | boolean | undefined
  | kwFn | kwLambda | kwIf | kwElse | kwReturn | kwTypeof | kwFor | kwWhile
  | kwDebug | kwUse | kwOut
  | binaryOperator | equals | plusEq | minusEq | equalityOp | inequalityOp
  | smallerThan | greaterThan | smallerOrEqual | greaterOrEqual
  | andOp | orOp | negationOp | increment | decrement
  | comma | dot | colon | semicolon
  | openParen | closeParen | openBrace | closeBrace | openBracket | closeBracket
  | ternaryOp | newline | eof
deriving DecidableEq

/-- Source position: the Go struct is built as
Position(t.line, t.index, t.position), so `column` mirrors the per-line
counter `t.index` and `index` the absolute rune offset `t.position`. -/
structure Position where
  line : Nat
  column : Nat
  index : Nat
deriving DecidableEq

/-- A token: kind, literal text, position. -/
structure Token where
  type : TokType
  value : Str
  pos : Position
deriving DecidableEq

/-- Lexical failures (tokenizer.go), plus the fuel-exhaustion artifact. -/
inductive LexErr where
  | unterminatedString
  | unexpectedCharacter
  | fuelOut
deriving DecidableEq

/-- Tokenizer state: the unread suffix of the input plus the three Go
counters (`t.line`, `t.index`, `t.position`). -/
structure TkState where
  rem : Str
  line : Nat
  index : Nat
  position : Nat
deriving DecidableEq

/-- The guarded advance: consume one rune, bumping `index` and
`position` (never past the end). -/
def advance (st : TkState) : TkState :=
  match st.rem with
  | [] => st
  | _ :: t => ⟨t, st.line, st.index + 1, st.position + 1⟩

/-- unicode.IsSpace, restricted to Latin-1 (the White_Space property
beyond Latin-1 is not modelled; no claim depends on it). -/
def goIsSpace (c : Char) : Bool :=
  c = ' ' || c = '\t' || c = '\n' || c = '\x0B' || c = '\x0C' || c = '\r' ||
    c.toNat = 0x85 || c.toNat = 0xA0

/-- unicode.IsDigit, restricted to ASCII (category Nd beyond ASCII not
modelled). -/
def goIsDigit (c : Char) : Bool := c.isDigit

/-- unicode.IsLetter, restricted to ASCII (category L beyond ASCII not
modelled). -/
def goIsLetter (c : Char) : Bool := c.isAlpha

/-- The escape mapping of readString: n, t and r map to control
characters; every other escaped character (including backslash and both
quotes) passes through as itself. -/
def escChar (c : Char) : Char :=
  if c = 'n' then '\n' else if c = 't' then '\t' else if c = 'r' then '\r' else c

/-- The scanning loop of readString, entered after the opening quote was
consumed; fails when the input ends before the closing quote. -/
def readStringAux (quote : Char) (escaped : Bool) :
    Str → Nat → Nat → Nat → Option (Str × TkState)
  | [], _, _, _ => none
  | c :: rest, l, i, p =>
      if escaped then
        (readStringAux quote false rest l (i + 1) (p + 1)).map fun r => (escChar c :: r.1, r.2)
      else if c = '\\' then readStringAux quote true rest l (i + 1) (p + 1)
      else if c = quote then some ([], ⟨rest, l, i + 1, p + 1⟩)
      else
        (readStringAux quote false rest l (i + 1) (p + 1)).map fun r => (c :: r.1, r.2)

/-- The loop of readNumber: digits and at most one decimal point (a
second point stops the number without being consumed). -/
def readNumberAux (isFloat : Bool) : Str → Nat → Nat → Nat → Str × Bool × TkState
  | [], l, i, p => ([], isFloat, ⟨[], l, i, p⟩)
  | c :: rest, l, i, p =>
      if goIsDigit c || c = '.' then
        if c = '.' ∧ isFloat then ([], isFloat, ⟨c :: rest, l, i, p⟩)
        else
          let fl := if c = '.' then true else isFloat
          let r := readNumberAux fl rest l (i + 1) (p + 1)
          (c :: r.1, r.2.1, r.2.2)
      else ([], isFloat, ⟨c :: rest, l, i, p⟩)

/-- The loop of readIdentifier: letters, digits and underscores. -/
def readIdentifierAux : Str → Nat → Nat → Nat → Str × TkState
  | [], l, i, p => ([], ⟨[], l, i, p⟩)
  | c :: rest, l, i, p =>
      if goIsLetter c || goIsDigit c || c = '_' then
        let r := readIdentifierAux rest l (i + 1) (p + 1)
        (c :: r.1, r.2)
      else ([], ⟨c :: rest, l, i, p⟩)

/-- isOperator (tokenizer.go): the operator character set. -/
def isOperatorChar (c : Char) : Bool :=
  c ∈ ['+', '-', '*', '/', '%', '=', '<', '>', '!', '&', '|', '^']

/-- The fixed two-character operator set of readOperator. -/
def twoCharOp (op : Str) : Bool :=
  op ∈ [['=', '='], ['!', '='], ['<', '='], ['>', '='], ['&', '&'], ['|', '|'],
    ['+', '+'], ['-', '-'], ['+', '='], ['-', '='], ['*', '='], ['/', '='], ['*', '*']]

/-- The loop of readOperator: consume operator characters greedily,
stopping as soon as the accumulated string (length at least two) matches
the two-character operator set. -/
def readOperatorAux (acc : Str) : Str → Nat → Nat → Nat → Str × TkState
  | [], l, i, p => (acc, ⟨[], l, i, p⟩)
  | c :: rest, l, i, p =>
      if isOperatorChar c then
        let acc2 := acc ++ [c]
        if 2 ≤ acc2.length ∧ twoCharOp acc2 then (acc2, ⟨rest, l, i + 1, p + 1⟩)
        else readOperatorAux acc2 rest l (i + 1) (p + 1)
      else (acc, ⟨c :: rest, l, i, p⟩)

/-- The comment-skipping loop: consume to (but not including) the next
newline or the end of input. -/
def skipComment : Str → Nat → Nat → Nat → TkState
  | [], l, i, p => ⟨[], l, i, p⟩
  | c :: rest, l, i, p =>
      if c = '\n' then ⟨c :: rest, l, i, p⟩ else skipComment rest l (i + 1) (p + 1)

/-- The keyword map of tokenizer.go, as a lookup table. -/
def keywords : List (Str × TokType) :=
  [(['f', 'n'], .kwFn), (['l', 'a', 'm', 'b', 'd', 'a'], .kwLambda),
   (['i', 'f'], .kwIf), (['e', 'l', 's', 'e'], .kwElse),
   (['r', 'e', 't', 'u', 'r', 'n'], .kwReturn),
   (['t', 'y', 'p', 'e', 'o', 'f'], .kwTypeof), (['f', 'o', 'r'], .kwFor),
   (['w', 'h', 'i', 'l', 'e'], .kwWhile), (['d', 'e', 'b', 'u', 'g'], .kwDebug),
   (['u', 's', 'e'], .kwUse), (['o', 'u', 't'], .kwOut),
   (['t', 'r', 'u', 'e'], .boolean), (['f', 'a', 'l', 's', 'e'], .boolean),
   (['u', 'n', 'd', 'e', 'f'], .undefined)]

/-- Identifiers exactly matching a keyword entry are reclassified. -/
def keywordType (s : Str) : TokType :=
  match keywords.find? (fun p => p.1 = s) with
  | some p => p.2
  | none => .identifier

/-- The operator classification switch of getOperatorType, as a lookup
table with the generic binary-operator default. -/
def operatorTypes : List (Str × TokType) :=
  [(['='], .equals), (['=', '='], .equalityOp), (['!', '='], .inequalityOp),
   (['<'], .smallerThan), (['>'], .greaterThan), (['<', '='], .smallerOrEqual),
   (['>', '='], .greaterOrEqual), (['&', '&'], .andOp), (['|', '|'], .orOp),
   (['!'], .negationOp), (['+', '+'], .increment), (['-', '-'], .decrement),
   (['+', '='], .plusEq), (['-', '='], .minusEq)]

/-- getOperatorType (tokenizer.go). -/
def getOperatorType (op : Str) : TokType :=
  match operatorTypes.find? (fun p => p.1 = op) with
  | some p => p.2
  | none => .binaryOperator

/-- The branch taken by the Tokenize switch for a leading character, in
the Go case order (the eleven single-character punctuation cases share
the `punctC` shape; their dedicated token kinds live in `punctTypes`). -/
inductive CharKind where
  | newlineC | spaceC | commentC | quoteC | digitC | letterC
  | punctC | operatorC | badC
deriving DecidableEq

/-- The dedicated token kind of each single-character punctuation case. -/
def punctTypes : List (Char × TokType) :=
  [('(', .openParen), (')', .closeParen), ('{', .openBrace), ('}', .closeBrace),
   ('[', .openBracket), (']', .closeBracket), (',', .comma), ('.', .dot),
   (':', .colon), (';', .semicolon), ('?', .ternaryOp)]

/-- Token kind of a punctuation character (the default is unreachable:
`punctType` is only consulted when `charKind` classified the character
as punctuation). -/
def punctType (c : Char) : TokType :=
  match punctTypes.find? (fun p => p.1 = c) with
  | some p => p.2
  | none => .dot

/-- Classify the leading character, testing the Go switch cases in
order. -/
def charKind (c : Char) : CharKind :=
  if c = '\n' then .newlineC
  else if goIsSpace c then .spaceC
  else if c = '#' then .commentC
  else if c = '"' || c = '\'' then .quoteC
  else if goIsDigit c then .digitC
  else if goIsLetter c || c = '_' then .letterC
  else match punctTypes.find? (fun p => p.1 = c) with
    | some _ => .punctC
    | none => if isOperatorChar c then .operatorC else .badC

/-- One iteration of the Tokenize loop on a nonempty remainder starting
with `c`: at most one token is produced and the state advances. -/
def tokenizeStep (c : Char) (rest : Str) (l i p : Nat) :
    Except LexErr (Option Token × TkState) :=
  match charKind c with
  | .newlineC =>
      -- the token is built first; then line is bumped, index reset, and
      -- the advance itself bumps index again (a fresh line starts at 1)
      .ok (some ⟨.newline, [c], ⟨l, i, p⟩⟩, advance ⟨c :: rest, l + 1, 0, p⟩)
  | .spaceC => .ok (none, advance ⟨c :: rest, l, i, p⟩)
  | .commentC => .ok (none, skipComment (c :: rest) l i p)
  | .quoteC =>
      match readStringAux c false rest l (i + 1) (p + 1) with
      | some r => .ok (some ⟨.string, r.1, ⟨l, i, p⟩⟩, r.2)
      | none => .error .unterminatedString
  | .digitC =>
      let r := readNumberAux false (c :: rest) l i p
      .ok (some ⟨if r.2.1 then .float else .int, r.1, ⟨l, i, p⟩⟩, r.2.2)
  | .letterC =>
      let r := readIdentifierAux (c :: rest) l i p
      .ok (some ⟨keywordType r.1, r.1, ⟨l, i, p⟩⟩, r.2)
  | .punctC => .ok (some ⟨punctType c, [c], ⟨l, i, p⟩⟩, advance ⟨c :: rest, l, i, p⟩)
  | .operatorC =>
      let r := readOperatorAux [] (c :: rest) l i p
      .ok (some ⟨getOperatorType r.1, r.1, ⟨l, i, p⟩⟩, r.2)
  | .badC => .error .unexpectedCharacter

/-- The Tokenize loop: iterate steps while input remains, then append the
single end-of-stream token carrying the final counters. -/
def tokenizeAux : Nat → TkState → Except LexErr (List Token)
  | 0, _ => .error .fuelOut
  | fuel + 1, st =>
      match st.rem with
      | [] => .ok [⟨.eof, [], ⟨st.line, st.index, st.position⟩⟩]
      | c :: rest =>
          match tokenizeStep c rest st.line st.index st.position with
          | .error e => .error e
          | .ok (t?, st2) =>
              match tokenizeAux fuel st2 with
              | .error e => .error e
              | .ok toks =>
                  .ok (match t? with
                       | some t => t :: toks
                       | none => toks)

/-- Tokenize (tokenizer.go): full input to token list.  Every step
consumes at least one rune, so fuel one beyond the input length never
runs out. -/
def Tokenize (input : Str) : Except LexErr (List Token) :=
  tokenizeAux (input.length + 1) ⟨input, 0, 0, 0⟩

/-- Parser state (parser.go): the token list and the cursor.  The source
text carried for error rendering is dropped: parse errors are modelled
as bare tags. -/
structure PState where
  tokens : List Token
  position : Nat
deriving DecidableEq

/-- The default token `at()` fabricates past the end of the stream. -/
def eofToken : Token := ⟨.eof, [], ⟨0, 0, 0⟩⟩

/-- at (parser.go). -/
def atTok (ps : PState) : Token := ps.tokens[ps.position]?.getD eofToken

/-- eat (parser.go): current token, cursor advanced. -/
def eatTok (ps : PState) : Token × PState := (atTok ps, ⟨ps.tokens, ps.position + 1⟩)

/-- isEOF (parser.go). -/
def isEOFTok (ps : PState) : Bool := (atTok ps).type = .eof

/-- The optional trailing semicolon consumed after every statement. -/
def skipSemi (ps : PState) : PState :=
  if (atTok ps).type = .semicolon then (eatTok ps).2 else ps

/-- Parse failures, one tag per formatted-error site of parser.go, plus
the fuel-exhaustion artifact. -/
inductive PErr where
  | expectedColonTernary
  | unexpectedToken
  | numberParse
  | expectedCloseParenArgs
  | expectedCloseBracketMember
  | expectedCloseBracketArray
  | expectedPropertyName
  | expectedColonProperty
  | expectedCloseBraceObject
  | expectedCloseParenExpr
  | expectedParenDefault
  | expectedCloseParenDefault
  | expectedColonAnonParams
  | expectedBraceOrColonFn
  | expectedCloseBraceFnBody
  | expectedFnAfterOut
  | unexpectedColonFnDecl
  | expectedFunctionName
  | expectedBraceOrColonIf
  | expectedCloseBraceIf
  | expectedCloseBraceElse
  | expectedBraceOrColonWhile
  | expectedCloseBraceWhile
  | expectedSemicolonForDecl
  | expectedSemicolonForTest
  | expectedBraceFor
  | expectedCloseBraceFor
  | expectedCloseBraceDebug
  | expectedStringAfterUse
  | fuelOut
deriving DecidableEq

/-- Result of one parser function: a node, an optional node
(parseStatement returns nil for a bare newline), the list-shaped results
of the collection loops, a parameter list, an error, or fuel
exhaustion. -/
inductive PRes where
  | n (node : Node) (ps : PState)
  | on (node : Option Node) (ps : PState)
  | ns (nodes : List Node) (ps : PState)
  | pr (props : List (Str × Node)) (ps : PState)
  | pa (params : List (Str × Option Node)) (ps : PState)
  | perr (e : PErr)
  | ptimeout

/-- One constructor per mutually recursive parser function/loop of
parser.go.  The inline collection loops (call arguments, array elements,
object properties, the brace-delimited statement bodies shared by
function/if/else/while/for, parameters, debug properties, and the
left-associative binary-operator loops) each get their own
accumulator-carrying constructor. -/
inductive PTask where
  | produceAST (acc : List Node)
  | parseStatement
  | parseExpression
  | parseAssignmentExpression
  | parseTernaryExpression
  | parseLogicalExpression
  | parseLogicalLoop (left : Node)
  | parseEqualityExpression
  | parseEqualityLoop (left : Node)
  | parseInequalityExpression
  | parseInequalityLoop (left : Node)
  | parseAdditiveExpression
  | parseAdditiveLoop (left : Node)
  | parseMultiplicativeExpression
  | parseMultiplicativeLoop (left : Node)
  | parseUnaryExpression
  | parseCallMemberExpression
  | parseCallExpression (caller : Node)
  | parseCallArgs (acc : List Node)
  | parseMemberExpression
  | parseMemberLoop (object : Node)
  | parsePrimaryExpression
  | parseArrayElems (acc : List Node)
  | parseObjectProps (acc : List (Str × Node))
  | parseFunctionExpression
  | parseParameterList (acc : List (Str × Option Node))
  | parseFunctionDeclaration
  | parseBlockBody (acc : List Node)
  | parseIfStatement
  | parseIfAlternate (test : Node) (cons : List Node)
  | parseWhileStatement
  | parseForStatement
  | parseReturnStatement
  | parseDebugStatement
  | parseDebugProps (acc : List Node)
  | parseUseStatement

/-- The recursive-descent parser (parser.go), fuel-indexed like the
evaluator. -/
def parse : Nat → PTask → PState → PRes
  | 0, _, _ => .ptimeout
  | fuel + 1, task, ps =>
    match task with
    | .produceAST acc =>
        if isEOFTok ps then .n (.program acc) ps
        else
          match parse fuel .parseStatement ps with
          | .on s ps2 => parse fuel (.produceAST (acc ++ s.toList)) ps2
          | r => r
    | .parseStatement =>
        match (atTok ps).type with
        | .newline => .on none (skipSemi (eatTok ps).2)
        | t =>
            let core :=
              match t with
              | .kwOut => parse fuel .parseFunctionDeclaration ps
              | .kwFn => parse fuel .parseFunctionDeclaration ps
              | .kwIf => parse fuel .parseIfStatement ps
              | .kwWhile => parse fuel .parseWhileStatement ps
              | .kwFor => parse fuel .parseForStatement ps
              | .kwReturn => parse fuel .parseReturnStatement ps
              | .kwDebug => parse fuel .parseDebugStatement ps
              | .kwUse => parse fuel .parseUseStatement ps
              | _ => parse fuel .parseExpression ps
            match core with
            | .n node ps2 => .on (some node) (skipSemi ps2)
            | r => r
    | .parseExpression => parse fuel .parseAssignmentExpression ps
    | .parseAssignmentExpression =>
        match parse fuel .parseTernaryExpression ps with
        | .n left ps1 =>
            if (atTok ps1).type = .equals then
              match parse fuel .parseExpression (eatTok ps1).2 with
              | .n value ps3 => .n (.assign left value) ps3
              | r => r
            else if (atTok ps1).type = .colon then
              let ea := eatTok (eatTok ps1).2
              if (atTok ea.2).type = .equals then
                match parse fuel .parseExpression (eatTok ea.2).2 with
                | .n value ps5 => .n (.actionAssign left value ea.1.value) ps5
                | r => r
              else .n left ea.2   -- the colon and action token stay consumed
            else .n left ps1
        | r => r
    | .parseTernaryExpression =>
        match parse fuel .parseLogicalExpression ps with
        | .n expr ps1 =>
            if (atTok ps1).type = .ternaryOp then
              -- the consequent is parsed at logical level so the colon is not swallowed
              match parse fuel .parseLogicalExpression (eatTok ps1).2 with
              | .n consequent ps3 =>
                  if (atTok ps3).type = .colon then
                    -- the alternate re-enters the ternary parser: right-associative
                    match parse fuel .parseTernaryExpression (eatTok ps3).2 with
                    | .n alternate ps5 => .n (.ternary expr consequent alternate) ps5
                    | r => r
                  else .perr .expectedColonTernary
              | r => r
            else .n expr ps1
        | r => r
    | .parseLogicalExpression =>
        match parse fuel .parseEqualityExpression ps with
        | .n left ps1 => parse fuel (.parseLogicalLoop left) ps1
        | r => r
    | .parseLogicalLoop left =>
        if (atTok ps).type = .andOp ∨ (atTok ps).type = .orOp then
          let e := eatTok ps
          match parse fuel .parseEqualityExpression e.2 with
          | .n right ps2 => parse fuel (.parseLogicalLoop (.logical left right e.1.value)) ps2
          | r => r
        else .n left ps
    | .parseEqualityExpression =>
        match parse fuel .parseInequalityExpression ps with
        | .n left ps1 => parse fuel (.parseEqualityLoop left) ps1
        | r => r
    | .parseEqualityLoop left =>
        if (atTok ps).type = .equalityOp ∨ (atTok ps).type = .inequalityOp then
          let e := eatTok ps
          match parse fuel .parseInequalityExpression e.2 with
          | .n right ps2 => parse fuel (.parseEqualityLoop (.equality left right e.1.value)) ps2
          | r => r
        else .n left ps
    | .parseInequalityExpression =>
        match parse fuel .parseAdditiveExpression ps with
        | .n left ps1 => parse fuel (.parseInequalityLoop left) ps1
        | r => r
    | .parseInequalityLoop left =>
        if (atTok ps).type = .smallerThan ∨ (atTok ps).type = .greaterThan ∨
            (atTok ps).type = .smallerOrEqual ∨ (atTok ps).type = .greaterOrEqual then
          let e := eatTok ps
          match parse fuel .parseAdditiveExpression e.2 with
          | .n right ps2 => parse fuel (.parseInequalityLoop (.inequality left right e.1.value)) ps2
          | r => r
        else .n left ps
    | .parseAdditiveExpression =>
        match parse fuel .parseMultiplicativeExpression ps with
        | .n left ps1 => parse fuel (.parseAdditiveLoop left) ps1
        | r => r
    | .parseAdditiveLoop left =>
        -- the additive/multiplicative loops test the token text, not its kind
        if (atTok ps).value = ['+'] ∨ (atTok ps).value = ['-'] then
          let e := eatTok ps
          match parse fuel .parseMultiplicativeExpression e.2 with
          | .n right ps2 => parse fuel (.parseAdditiveLoop (.binary left right e.1.value)) ps2
          | r => r
        else .n left ps
    | .parseMultiplicativeExpression =>
        match parse fuel .parseUnaryExpression ps with
        | .n left ps1 => parse fuel (.parseMultiplicativeLoop left) ps1
        | r => r
    | .parseMultiplicativeLoop left =>
        if (atTok ps).value = ['*'] ∨ (atTok ps).value = ['/'] ∨
            (atTok ps).value = ['%'] ∨ (atTok ps).value = ['*', '*'] then
          let e := eatTok ps
          match parse fuel .parseUnaryExpression e.2 with
          | .n right ps2 => parse fuel (.parseMultiplicativeLoop (.binary left right e.1.value)) ps2
          | r => r
        else .n left ps
    | .parseUnaryExpression =>
        if (atTok ps).type = .negationOp ∨ (atTok ps).value = ['+'] ∨ (atTok ps).value = ['-'] ∨
            (atTok ps).type = .increment ∨ (atTok ps).type = .decrement then
          let e := eatTok ps
          match parse fuel .parseUnaryExpression e.2 with
          | .n value ps2 => .n (.unary value e.1.value) ps2
          | r => r
        else
          match parse fuel .parseCallMemberExpression ps with
          | .n expr ps1 =>
              if (atTok ps1).type = .increment ∨ (atTok ps1).type = .decrement then
                let e2 := eatTok ps1
                .n (.unary expr (e2.1.value ++ ['_', 'p', 'o', 's', 't'])) e2.2
              else .n expr ps1
          | r => r
    | .parseCallMemberExpression =>
        match parse fuel .parseMemberExpression ps with
        | .n memberE ps1 =>
            if (atTok ps1).type = .openParen then parse fuel (.parseCallExpression memberE) ps1
            else .n memberE ps1
        | r => r
    | .parseCallExpression caller =>
        let ps1 := (eatTok ps).2   -- consume the opening parenthesis
        match (if (atTok ps1).type = .closeParen then PRes.ns [] ps1
               else parse fuel (.parseCallArgs []) ps1) with
        | .ns args ps2 =>
            if (atTok ps2).type = .closeParen then
              let ps3 := (eatTok ps2).2
              if (atTok ps3).type = .openParen then
                parse fuel (.parseCallExpression (.call caller args)) ps3
              else .n (.call caller args) ps3
            else .perr .expectedCloseParenArgs
        | r => r
    | .parseCallArgs acc =>
        match parse fuel .parseExpression ps with
        | .n arg ps1 =>
            if (atTok ps1).type = .comma then
              parse fuel (.parseCallArgs (acc ++ [arg])) (eatTok ps1).2
            else .ns (acc ++ [arg]) ps1
        | r => r
    | .parseMemberExpression =>
        match parse fuel .parsePrimaryExpression ps with
        | .n obj ps1 => parse fuel (.parseMemberLoop obj) ps1
        | r => r
    | .parseMemberLoop object =>
        if (atTok ps).type = .dot then
          match parse fuel .parsePrimaryExpression (eatTok ps).2 with
          | .n prop ps2 => parse fuel (.parseMemberLoop (.member object prop false)) ps2
          | r => r
        else if (atTok ps).type = .openBracket then
          match parse fuel .parseExpression (eatTok ps).2 with
          | .n prop ps2 =>
              if (atTok ps2).type = .closeBracket then
                parse fuel (.parseMemberLoop (.member object prop true)) (eatTok ps2).2
              else .perr .expectedCloseBracketMember
          | r => r
        else .n object ps
    | .parsePrimaryExpression =>
        match (atTok ps).type with
        | .identifier =>
            let e := eatTok ps
            .n (.ident e.1.value) e.2
        | .int =>
            let e := eatTok ps
            match parseNumQ e.1.value with
            | some v => .n (.numLit v) e.2
            | none => .perr .numberParse
        | .float =>
            let e := eatTok ps
            match parseNumQ e.1.value with
            | some v => .n (.numLit v) e.2
            | none => .perr .numberParse
        | .string =>
            let e := eatTok ps
            .n (.strLit e.1.value) e.2
        | .boolean =>
            let e := eatTok ps
            .n (.boolLit (e.1.value = ['t', 'r', 'u', 'e'])) e.2
        | .undefined => .n .undefLit (eatTok ps).2
        | .kwTypeof =>
            match parse fuel .parseUnaryExpression (eatTok ps).2 with
            | .n v ps2 => .n (.typeofE v) ps2
            | r => r
        | .openParen =>
            match parse fuel .parseExpression (eatTok ps).2 with
            | .n expr ps2 =>
                if (atTok ps2).type = .closeParen then .n expr (eatTok ps2).2
                else .perr .expectedCloseParenExpr
            | r => r
        | .openBracket =>
            let ps1 := (eatTok ps).2
            match (if (atTok ps1).type = .closeBracket then PRes.ns [] ps1
                   else parse fuel (.parseArrayElems []) ps1) with
            | .ns elems ps2 =>
                if (atTok ps2).type = .closeBracket then .n (.arrayLit elems) (eatTok ps2).2
                else .perr .expectedCloseBracketArray
            | r => r
        | .openBrace =>
            let ps1 := (eatTok ps).2
            match (if (atTok ps1).type = .closeBrace then PRes.pr [] ps1
                   else parse fuel (.parseObjectProps []) ps1) with
            | .pr props ps2 =>
                if (atTok ps2).type = .closeBrace then .n (.objectLit props) (eatTok ps2).2
                else .perr .expectedCloseBraceObject
            | r => r
        | .kwFn => parse fuel .parseFunctionExpression ps
        | .kwLambda => parse fuel .parseFunctionExpression ps
        | _ => .perr .unexpectedToken
    | .parseArrayElems acc =>
        match parse fuel .parseExpression ps with
        | .n expr ps1 =>
            if (atTok ps1).type = .comma then
              parse fuel (.parseArrayElems (acc ++ [expr])) (eatTok ps1).2
            else .ns (acc ++ [expr]) ps1
        | r => r
    | .parseObjectProps acc =>
        if (atTok ps).type = .identifier ∨ (atTok ps).type = .string then
          let e := eatTok ps
          if (atTok e.2).type = .comma ∨ (atTok e.2).type = .closeBrace then
            -- shorthand property
            let acc2 := acc ++ [(e.1.value, Node.ident e.1.value)]
            if (atTok e.2).type = .comma then parse fuel (.parseObjectProps acc2) (eatTok e.2).2
            else .pr acc2 e.2
          else if (atTok e.2).type = .colon then
            match parse fuel .parseExpression (eatTok e.2).2 with
            | .n value ps3 =>
                let acc2 := acc ++ [(e.1.value, value)]
                if (atTok ps3).type = .comma then
                  parse fuel (.parseObjectProps acc2) (eatTok ps3).2
                else .pr acc2 ps3
            | r => r
          else .perr .expectedColonProperty
        else .perr .expectedPropertyName
    | .parseFunctionExpression =>
        let isLambda := (atTok ps).type = .kwLambda
        let ps1 := (eatTok ps).2
        if (atTok ps1).type = .colon then
          let ps2 := (eatTok ps1).2
          if (atTok ps2).type = .colon then
            -- fn:: expr parses as an immediately invoked anonymous function
            match parse fuel .parseExpression (eatTok ps2).2 with
            | .n expr ps4 => .n (.call (.fnDecl [] [] [.retExpr expr] false) []) ps4
            | r => r
          else
            match parse fuel (.parseParameterList []) ps2 with
            | .pa params ps3 =>
                if (atTok ps3).type = .colon then
                  match parse fuel .parseTernaryExpression (eatTok ps3).2 with
                  | .n expr ps5 => .n (.fnDecl [] params [.retExpr expr] false) ps5
                  | r => r
                else .perr .expectedColonAnonParams
            | r => r
        else
          let np :=
            if ¬isLambda ∧ (atTok ps1).type = .identifier then
              ((eatTok ps1).1.value, (eatTok ps1).2)
            else (([] : Str), ps1)
          match parse fuel (.parseParameterList []) np.2 with
          | .pa params ps3 =>
              if (atTok ps3).type = .openBrace then
                match parse fuel (.parseBlockBody []) (eatTok ps3).2 with
                | .ns body ps5 =>
                    if (atTok ps5).type = .closeBrace then
                      .n (.fnDecl np.1 params body false) (eatTok ps5).2
                    else .perr .expectedCloseBraceFnBody
                | r => r
              else if (atTok ps3).type = .colon then
                match parse fuel .parseTernaryExpression (eatTok ps3).2 with
                | .n expr ps5 => .n (.fnDecl np.1 params [.retExpr expr] false) ps5
                | r => r
              else .perr .expectedBraceOrColonFn
          | r => r
    | .parseParameterList acc =>
        if (atTok ps).type = .identifier then
          let e := eatTok ps
          if (atTok e.2).type = .equals then
            let ps2 := (eatTok e.2).2
            if (atTok ps2).type = .openParen then
              match parse fuel .parseExpression (eatTok ps2).2 with
              | .n dexpr ps4 =>
                  if (atTok ps4).type = .closeParen then
                    parse fuel (.parseParameterList (acc ++ [(e.1.value, some dexpr)]))
                      (eatTok ps4).2
                  else .perr .expectedCloseParenDefault
              | r => r
            else .perr .expectedParenDefault
          else parse fuel (.parseParameterList (acc ++ [(e.1.value, none)])) e.2
        else .pa acc ps
    | .parseFunctionDeclaration =>
        let e := eatTok ps   -- consume fn or out
        let outFlag := e.1.type = .kwOut
        if outFlag ∧ (atTok e.2).type ≠ .kwFn then .perr .expectedFnAfterOut
        else
          let ps2 := if outFlag then (eatTok e.2).2 else e.2
          if (atTok ps2).type = .colon then
            let ps3 := (eatTok ps2).2
            if (atTok ps3).type = .colon then
              -- fn:: at statement level: the declaration itself is returned
              match parse fuel .parseExpression (eatTok ps3).2 with
              | .n expr ps5 => .n (.fnDecl [] [] [.retExpr expr] outFlag) ps5
              | r => r
            else .perr .unexpectedColonFnDecl
          else if (atTok ps2).type = .identifier then
            let e2 := eatTok ps2
            match parse fuel (.parseParameterList []) e2.2 with
            | .pa params ps3 =>
                if (atTok ps3).type = .openBrace then
                  match parse fuel (.parseBlockBody []) (eatTok ps3).2 with
                  | .ns body ps5 =>
                      if (atTok ps5).type = .closeBrace then
                        .n (.fnDecl e2.1.value params body outFlag) (eatTok ps5).2
                      else .perr .expectedCloseBraceFnBody
                  | r => r
                else if (atTok ps3).type = .colon then
                  match parse fuel .parseTernaryExpression (eatTok ps3).2 with
                  | .n expr ps5 => .n (.fnDecl e2.1.value params [.retExpr expr] outFlag) ps5
                  | r => r
                else .perr .expectedBraceOrColonFn
            | r => r
          else .perr .expectedFunctionName
    | .parseBlockBody acc =>
        if (atTok ps).type = .closeBrace ∨ (atTok ps).type = .eof then .ns acc ps
        else
          match parse fuel .parseStatement ps with
          | .on s ps1 => parse fuel (.parseBlockBody (acc ++ s.toList)) ps1
          | r => r
    | .parseIfStatement =>
        match parse fuel .parseExpression (eatTok ps).2 with
        | .n test ps2 =>
            if (atTok ps2).type = .openBrace then
              match parse fuel (.parseBlockBody []) (eatTok ps2).2 with
              | .ns cons ps4 =>
                  if (atTok ps4).type = .closeBrace then
                    parse fuel (.parseIfAlternate test cons) (eatTok ps4).2
                  else .perr .expectedCloseBraceIf
              | r => r
            else if (atTok ps2).type = .colon then
              match parse fuel .parseStatement (eatTok ps2).2 with
              | .on s ps4 => parse fuel (.parseIfAlternate test s.toList) ps4
              | r => r
            else .perr .expectedBraceOrColonIf
        | r => r
    | .parseIfAlternate test cons =>
        if (atTok ps).type = .kwElse then
          let ps1 := (eatTok ps).2
          if (atTok ps1).type = .kwIf then
            match parse fuel .parseIfStatement ps1 with
            | .n elseIf ps2 => .n (.ifStmt test cons [elseIf]) ps2
            | r => r
          else if (atTok ps1).type = .openBrace then
            match parse fuel (.parseBlockBody []) (eatTok ps1).2 with
            | .ns alt ps3 =>
                if (atTok ps3).type = .closeBrace then .n (.ifStmt test cons alt) (eatTok ps3).2
                else .perr .expectedCloseBraceElse
            | r => r
          else
            match parse fuel .parseStatement ps1 with
            | .on s ps2 => .n (.ifStmt test cons s.toList) ps2
            | r => r
        else .n (.ifStmt test cons []) ps
    | .parseWhileStatement =>
        match parse fuel .parseExpression (eatTok ps).2 with
        | .n test ps2 =>
            if (atTok ps2).type = .openBrace then
              match parse fuel (.parseBlockBody []) (eatTok ps2).2 with
              | .ns cons ps4 =>
                  if (atTok ps4).type = .closeBrace then
                    .n (.whileStmt test cons) (eatTok ps4).2
                  else .perr .expectedCloseBraceWhile
              | r => r
            else if (atTok ps2).type = .colon then
              match parse fuel .parseStatement (eatTok ps2).2 with
              | .on s ps4 => .n (.whileStmt test s.toList) ps4
              | r => r
            else .perr .expectedBraceOrColonWhile
        | r => r
    | .parseForStatement =>
        match parse fuel .parseExpression (eatTok ps).2 with
        | .n decl ps2 =>
            if (atTok ps2).type = .semicolon then
              match parse fuel .parseExpression (eatTok ps2).2 with
              | .n test ps4 =>
                  if (atTok ps4).type = .semicolon then
                    match parse fuel .parseExpression (eatTok ps4).2 with
                    | .n inc ps6 =>
                        if (atTok ps6).type = .openBrace then
                          match parse fuel (.parseBlockBody []) (eatTok ps6).2 with
                          | .ns body ps8 =>
                              if (atTok ps8).type = .closeBrace then
                                .n (.forStmt decl test inc body) (eatTok ps8).2
                              else .perr .expectedCloseBraceFor
                          | r => r
                        else .perr .expectedBraceFor
                    | r => r
                  else .perr .expectedSemicolonForTest
              | r => r
            else .perr .expectedSemicolonForDecl
        | r => r
    | .parseReturnStatement =>
        match parse fuel .parseExpression (eatTok ps).2 with
        | .n value ps2 => .n (.retExpr value) ps2
        | r => r
    | .parseDebugStatement =>
        let ps1 := (eatTok ps).2
        if (atTok ps1).type = .openBrace then
          let ps2 := (eatTok ps1).2
          match (if (atTok ps2).type = .closeBrace then PRes.ns [] ps2
                 else parse fuel (.parseDebugProps []) ps2) with
          | .ns props ps3 =>
              if (atTok ps3).type = .closeBrace then .n (.debugStmt props) (eatTok ps3).2
              else .perr .expectedCloseBraceDebug
          | r => r
        else
          match parse fuel .parseExpression ps1 with
          | .n expr ps2 => .n (.debugStmt [expr]) ps2
          | r => r
    | .parseDebugProps acc =>
        match parse fuel .parseExpression ps with
        | .n expr ps1 =>
            if (atTok ps1).type = .comma then
              parse fuel (.parseDebugProps (acc ++ [expr])) (eatTok ps1).2
            else .ns (acc ++ [expr]) ps1
        | r => r
    | .parseUseStatement =>
        let ps1 := (eatTok ps).2
        if (atTok ps1).type = .string then
          let e := eatTok ps1
          .n (.useStmt e.1.value) e.2
        else .perr .expectedStringAfterUse

/-- ProduceAST (parser.go): parse statements until end of stream into a
Program node. -/
def ProduceAST (fuel : Nat) (tokens : List Token) : PRes :=
  parse fuel (.produceAST []) ⟨tokens, 0⟩

/-- Result of the full pipeline of luna.go Evaluate. -/
inductive RunRes where
  | res (r : Res)
  | lexErr (e : LexErr)
  | parseErr (e : PErr)

/-- The root state of main.go: one root environment without a parent
(the native-function installation is a host concern, not modelled). -/
def rootSt : St := ⟨[⟨none, [], []⟩], [], []⟩

/-- LunaEvaluate (luna.go Evaluate): tokenize, parse, then evaluate the
program against the root environment. -/
def LunaEvaluate (fuel : Nat) (code : Str) : RunRes :=
  match Tokenize code with
  | .error e => .lexErr e
  | .ok toks =>
      match ProduceAST fuel toks with
      | .n ast _ => .res (Evaluate fuel ast 0 rootSt)
      | .perr e => .parseErr e
      | _ => .parseErr .fuelOut

/-! Auxiliary lemmas about the split/join machinery behind
strings.ReplaceAll, used to settle the string-interpolation claim. -/

theorem splitOnAux_succ_nil (pat : Str) (fuel : Nat) :
    splitOnAux pat (fuel + 1) [] = [[]] := rfl

theorem splitOnAux_succ_cons (pat : Str) (fuel : Nat) (c : Char) (rest : Str) :
    splitOnAux pat (fuel + 1) (c :: rest) =
      if pat ≠ [] ∧ pat <+: c :: rest then
        [] :: splitOnAux pat fuel ((c :: rest).drop pat.length)
      else consHead c (splitOnAux pat fuel rest) := rfl

theorem splitOnAux_ne_nil (pat : Str) : ∀ fuel s, splitOnAux pat fuel s ≠ []
  | 0, s => by simp [splitOnAux]
  | _ + 1, [] => by simp [splitOnAux]
  | fuel + 1, c :: rest => by
      rw [splitOnAux_succ_cons]
      split
      · simp
      · cases hrec : splitOnAux pat fuel rest with
        | nil => exact absurd hrec (splitOnAux_ne_nil pat fuel rest)
        | cons h t => simp [consHead]

theorem prefix_cons_cons {h rest : Str} (c : Char) (hp : h <+: rest) :
    c :: h <+: c :: rest := by
  obtain ⟨t, ht⟩ := hp
  exact ⟨t, by rw [List.cons_append, ht]⟩

theorem splitOnAux_headPrefixOf (pat : Str) :
    ∀ fuel s h t, splitOnAux pat fuel s = h :: t → h <+: s
  | 0, s, h, t => by
      intro he
      simp only [splitOnAux] at he
      cases he
      exact List.prefix_refl s
  | _ + 1, [], h, t => by
      intro he
      rw [splitOnAux_succ_nil] at he
      cases he
      exact List.prefix_refl _
  | fuel + 1, c :: rest, h, t => by
      intro he
      rw [splitOnAux_succ_cons] at he
      split at he
      · cases he
        exact List.nil_prefix
      · cases hrec : splitOnAux pat fuel rest with
        | nil => exact absurd hrec (splitOnAux_ne_nil pat fuel rest)
        | cons h2 t2 =>
            rw [hrec] at he
            simp only [consHead] at he
            cases he
            exact prefix_cons_cons c (splitOnAux_headPrefixOf pat fuel rest h2 _ hrec)

theorem splitOnAux_join (pat : Str) :
    ∀ fuel s, s.length < fuel → joinSep pat (splitOnAux pat fuel s) = s
  | 0, s => by omega
  | _ + 1, [] => by
      intro _
      rw [splitOnAux_succ_nil]
      rfl
  | fuel + 1, c :: rest => by
      intro hlen
      rw [splitOnAux_succ_cons]
      split
      · next hcond =>
          obtain ⟨hne, hpre⟩ := hcond
          obtain ⟨tail, htail⟩ := hpre
          have hdrop : (c :: rest).drop pat.length = tail := by
            rw [← htail]
            exact List.drop_left pat tail
          have hlt : tail.length < fuel := by
            have hp : 0 < pat.length := List.length_pos.mpr hne
            have hlen2 : (c :: rest).length = pat.length + tail.length := by
              rw [← htail]
              simp
            simp only [hlen2] at hlen
            omega
          have hrec := splitOnAux_join pat fuel tail hlt
          rw [hdrop]
          cases hsplit : splitOnAux pat fuel tail with
          | nil => exact absurd hsplit (splitOnAux_ne_nil pat fuel _)
          | cons h2 t2 =>
              rw [hsplit] at hrec
              simp only [joinSep]
              rw [hrec, ← htail]
              simp
      · have hlt : rest.length < fuel := by
          simp only [List.length_cons] at hlen
          omega
        have hrec := splitOnAux_join pat fuel rest hlt
        cases hsplit : splitOnAux pat fuel rest with
        | nil => exact absurd hsplit (splitOnAux_ne_nil pat fuel _)
        | cons h2 t2 =>
            rw [hsplit] at hrec
            cases t2 with
            | nil =>
                simp only [joinSep] at hrec
                simp [consHead, joinSep, hrec]
            | cons t3 ts =>
                simp only [joinSep] at hrec
                simp [consHead, joinSep, ← hrec]

theorem infix_cons_cases {pat h : Str} {c : Char} (hin : pat <:+: c :: h) :
    pat <+: c :: h ∨ pat <:+: h := by
  obtain ⟨s, t, hst⟩ := hin
  cases s with
  | nil =>
      left
      exact ⟨t, by simpa using hst⟩
  | cons a s2 =>
      right
      simp only [List.cons_append, List.cons.injEq] at hst
      exact ⟨s2, t, hst.2⟩

theorem nonempty_not_infix_nil {pat : Str} (hne : pat ≠ []) : ¬ pat <:+: [] := by
  intro hinf
  obtain ⟨s2, t2, hst⟩ := hinf
  simp only [List.append_eq_nil] at hst
  exact hne hst.1.2

theorem splitOnAux_chunk_not_infix (pat : Str) (hne : pat ≠ []) :
    ∀ fuel s, s.length < fuel → ∀ c ∈ splitOnAux pat fuel s, ¬ pat <:+: c
  | 0, s => by omega
  | _ + 1, [] => by
      intro _ chunk hmem
      rw [splitOnAux_succ_nil] at hmem
      simp at hmem
      subst hmem
      exact nonempty_not_infix_nil hne
  | fuel + 1, a :: rest => by
      intro hlen chunk hmem
      rw [splitOnAux_succ_cons] at hmem
      split at hmem
      · next hcond =>
          obtain ⟨_, hpre⟩ := hcond
          obtain ⟨tail, htail⟩ := hpre
          have hdrop : (a :: rest).drop pat.length = tail := by
            rw [← htail]
            exact List.drop_left pat tail
          have hlt : tail.length < fuel := by
            have hp : 0 < pat.length := List.length_pos.mpr hne
            have hlen2 : (a :: rest).length = pat.length + tail.length := by
              rw [← htail]
              simp
            simp only [hlen2] at hlen
            omega
          rw [hdrop] at hmem
          rcases List.mem_cons.mp hmem with hmem2 | hmem2
          · subst hmem2
            exact nonempty_not_infix_nil hne
          · exact splitOnAux_chunk_not_infix pat hne fuel tail hlt chunk hmem2
      · next hcond =>
          have hlt : rest.length < fuel := by
            simp only [List.length_cons] at hlen
            omega
          cases hsplit : splitOnAux pat fuel rest with
          | nil => exact absurd hsplit (splitOnAux_ne_nil pat fuel _)
          | cons h2 t2 =>
              rw [hsplit] at hmem
              simp only [consHead, List.mem_cons] at hmem
              rcases hmem with hmem2 | hmem2
              · subst hmem2
                intro hinf
                rcases infix_cons_cases hinf with hpre | hinf2
                · have hh2 : h2 <+: rest :=
                    splitOnAux_headPrefixOf pat fuel rest h2 t2 hsplit
                  exact hcond ⟨hne, hpre.trans (prefix_cons_cons a hh2)⟩
                · exact splitOnAux_chunk_not_infix pat hne fuel rest hlt h2
                    (by rw [hsplit]; exact List.mem_cons_self _ _) hinf2
              · exact splitOnAux_chunk_not_infix pat hne fuel rest hlt chunk
                  (by rw [hsplit]; exact List.mem_cons_of_mem _ hmem2)


theorem hasInfix_false_splitOnAux (pat : Str) :
    ∀ fuel s, hasInfix pat s = false → splitOnAux pat fuel s = [s]
  | 0, s => by intro _; rfl
  | _ + 1, [] => by
      intro _
      rw [splitOnAux_succ_nil]
  | fuel + 1, c :: rest => by
      intro h
      simp only [hasInfix, Bool.or_eq_false_iff, decide_eq_false_iff_not] at h
      rw [splitOnAux_succ_cons, if_neg (fun hc => h.1 hc.2),
        hasInfix_false_splitOnAux pat fuel rest h.2]
      rfl

/-- When the pattern does not occur, ReplaceAll is the identity. -/
theorem replaceAll_of_not_contains (pat rep s : Str) (h : hasInfix pat s = false) :
    replaceAll pat rep s = s := by
  unfold replaceAll splitOn
  rw [hasInfix_false_splitOnAux pat _ s h]
  rfl

/-! Auxiliary lemmas about the environment operations. -/

theorem mapGet_mapSet_self (n : Str) (v : Value) :
    ∀ m, mapGet n (mapSet n v m) = some v
  | [] => by simp [mapSet, mapGet]
  | (k, w) :: t => by
      simp only [mapSet]
      split
      · simp [mapGet]
      · next hk =>
          simp only [mapGet, if_neg hk]
          exact mapGet_mapSet_self n v t

theorem DeclareVar_envs_length (st : St) (e : Nat) (n : Str) (v : Value) (c : Bool) :
    (DeclareVar st e n v c).envs.length = st.envs.length := by
  unfold DeclareVar
  cases hget : st.envs[e]? <;> simp

theorem LookupVar_DeclareVar_self (st : St) (e : Nat) (n : Str) (v : Value) (c : Bool)
    (he : e < st.envs.length) :
    LookupVar (DeclareVar st e n v c) e n = v := by
  have hget : st.envs[e]? = some st.envs[e] := List.getElem?_eq_getElem he
  unfold DeclareVar
  rw [hget]
  unfold LookupVar lookupChain
  simp only
  rw [List.getElem?_set_self (by simpa using he)]
  simp only [mapGet_mapSet_self]

theorem AssignVar_const_local (st : St) (e : Nat) (n : Str) (v : Value) (env : Env)
    (hget : st.envs[e]? = some env) (hmem : n ∈ env.constants) :
    AssignVar st e n v = st := by
  unfold AssignVar
  rw [hget]
  simp [hmem]

theorem hasChain_false_lookupChain (st : St) (name : Str) :
    ∀ fuel cur, hasChain st name fuel cur = false → lookupChain st name fuel cur = .undef
  | fuel, none => by intro _; cases fuel <;> rfl
  | 0, some c => by intro _; rfl
  | fuel + 1, some c => by
      cases hget : st.envs[c]? with
      | none => intro _; simp [lookupChain, hget]
      | some env =>
          cases hmap : mapGet name env.vars with
          | some v =>
              intro h
              simp [hasChain, List.get?_eq_getElem?, hget, hmap] at h
          | none =>
              intro h
              simp only [hasChain, List.get?_eq_getElem?, hget, hmap] at h
              simp only [lookupChain, List.get?_eq_getElem?, hget, hmap]
              exact hasChain_false_lookupChain st name fuel env.parent h

/-! ## Claim-supporting concrete states and programs -/

/-- Two-environment chain: the root (index 0) binds x to 1 and marks it
constant; index 1 is a child of the root with no local bindings. -/
def stC1 : St := ⟨[⟨none, [(['x'], .num (.q 1))], [['x']]⟩, ⟨some 0, [], []⟩], [], []⟩

/-- One root environment binding a to a heap array of length one. -/
def stC3 : St := ⟨[⟨none, [(['a'], .arr 0)], []⟩], [[.num (.q 1)]], []⟩

/-- One root environment binding b to true (drives one while iteration). -/
def stW : St := ⟨[⟨none, [(['b'], .bool true)], []⟩], [], []⟩

/-- One root environment binding x to the string Bob. -/
def stI : St := ⟨[⟨none, [(['x'], .str ['B', 'o', 'b'])], []⟩], [], []⟩

/-- The ternary source of the right-associativity test. -/
def srcC8 : Str := ("true ? 1 : false ? 2 : 3").data

/-- Its expected AST: the alternate holds the nested ternary. -/
def astC8 : Node :=
  .ternary (.boolLit true) (.numLit (.q 1))
    (.ternary (.boolLit false) (.numLit (.q 2)) (.numLit (.q 3)))

/-! ## C1 -/

/-- C1 counterexample: x is constant in environment 0, which is on the
parent chain of environment 1 (whose parent is 0), yet AssignVar called
on environment 1 mutates the binding of x from 1 to 2 - the constant
check consults only the constants set of the environment assign is
called on, so a constant marked in an ancestor does not protect. -/
theorem C1_counterexample :
    (stC1.envs[0]?.map Env.constants = some [['x']]) ∧
    (stC1.envs[1]?.map Env.parent = some (some 0)) ∧
    LookupVar stC1 1 ['x'] = .num (.q 1) ∧
    LookupVar (AssignVar stC1 1 ['x'] (.num (.q 2))) 1 ['x'] = .num (.q 2) :=
  ⟨rfl, rfl, rfl, rfl⟩

/-- C1 (amended): assign(name, value) has no observable effect exactly
when the name is in the constant set of the environment on which assign
is called (the parent chain is not consulted for constancy); in
particular the spec example still holds: after `x: const = (1)`,
evaluating `x = 2` is accepted (the assignment expression itself yields
2) but leaves the binding of x equal to 1. -/
theorem C1_theorem :
    (∀ (st : St) (e : Nat) (n : Str) (v : Value) (env : Env),
        st.envs[e]? = some env → n ∈ env.constants → AssignVar st e n v = st) ∧
    (∃ st2,
        Evaluate 20 (.program
          [.actionAssign (.ident ['x']) (.numLit (.q 1)) ['c', 'o', 'n', 's', 't'],
           .assign (.ident ['x']) (.numLit (.q 2))]) 0 rootSt = .ok (.num (.q 2)) st2 ∧
        LookupVar st2 0 ['x'] = .num (.q 1)) := by
  constructor
  · intro st e n v env hget hmem
    exact AssignVar_const_local st e n v env hget hmem
  · exact ⟨_, rfl, rfl⟩

/-- C1 witness: the no-effect direction applied at a concrete constant. -/
theorem C1_witness : AssignVar stC1 0 ['x'] (.num (.q 7)) = stC1 :=
  C1_theorem.1 stC1 0 ['x'] (.num (.q 7)) ⟨none, [(['x'], .num (.q 1))], [['x']]⟩ rfl
    (by simp)

/-! ## C2 -/

/-- C2 counterexample: an interpreted call whose body is the single
statement `5` finishes with no statement producing a return-signal, yet
the call returns the number 5, not the void value. -/
theorem C2_counterexample :
    exec 20 (.ev (.call (.fnDecl [] [] [.numLit (.q 5)] false) []) 0) rootSt =
      .ok (.num (.q 5)) ⟨[⟨none, [], []⟩, ⟨some 0, [], []⟩], [], []⟩ ∧
    Value.num (.q 5) ≠ .void :=
  ⟨rfl, by simp⟩

/-- C2 (amended): a call whose body produces no return-signal returns
the value of the last evaluated body statement, not void; only an empty
body yields the void initialization.  Conjuncts: a call of an
empty-bodied function returns void; the result of running a nonempty
body is independent of the void seed of the result accumulator; a call
whose body is the single statement `5` returns the number 5. -/
theorem C2_theorem :
    (∀ (f : Nat) (st : St) (e : Nat),
        exec (f + 6) (.ev (.call (.fnDecl [] [] [] false) []) e) st =
          .ok .void { st with envs := st.envs ++ [⟨some e, [], []⟩] }) ∧
    (∀ (fuel : Nat) (s : Node) (rest : List Node) (e : Nat) (a b : Value) (st : St),
        exec fuel (.callBody (s :: rest) e a) st = exec fuel (.callBody (s :: rest) e b) st) ∧
    (∀ (f : Nat) (st : St) (e : Nat),
        exec (f + 8) (.ev (.call (.fnDecl [] [] [.numLit (.q 5)] false) []) e) st =
          .ok (.num (.q 5)) { st with envs := st.envs ++ [⟨some e, [], []⟩] }) := by
  refine ⟨fun f st e => rfl, ?_, fun f st e => rfl⟩
  intro fuel s rest e a b st
  cases fuel <;> rfl

/-! ## C3 -/

/-- C3 counterexample: assigning index 1 of the length-one array bound
to a triggers a Go index-out-of-range panic, not a returned
RuntimeError. -/
theorem C3_counterexample :
    exec 20 (.ev (.assign (.member (.ident ['a']) (.numLit (.q 1)) true)
        (.numLit (.q 9))) 0) stC3 = .panic .indexOutOfRange ∧
    ∀ e : EvalErr, Res.panic .indexOutOfRange ≠ .err e :=
  ⟨rfl, by intro e; simp⟩

/-- C3 (amended): member assignment into an array with a truncated index
outside the current bounds does not produce a propagated error result -
the unchecked slice store panics with index out of range, crashing the
interpreter; an in-bounds assignment stores the element without changing
the array's length (no implicit resize in either case).  The third
conjunct runs the whole out-of-bounds evaluation end to end. -/
theorem C3_theorem :
    (∀ (st : St) (ref : Nat) (elems : List Value) (q : GoFloat) (v : Value),
        st.arrays[ref]? = some elems →
        ¬ (0 ≤ truncF q ∧ (truncF q).toNat < elems.length) →
        assignMember st (.arr ref) (.num q) v = .panic .indexOutOfRange) ∧
    (∀ (st : St) (ref : Nat) (elems : List Value) (q : GoFloat) (v : Value),
        st.arrays[ref]? = some elems →
        (0 ≤ truncF q ∧ (truncF q).toNat < elems.length) →
        ∃ st2, assignMember st (.arr ref) (.num q) v = .ok v st2 ∧
          st2.arrays[ref]?.map List.length = some elems.length) ∧
    (exec 20 (.ev (.assign (.member (.ident ['a']) (.numLit (.q 1)) true)
        (.numLit (.q 9))) 0) stC3 = .panic .indexOutOfRange) := by
  refine ⟨?_, ?_, rfl⟩
  · intro st ref elems q v hget hoob
    simp only [assignMember, hget]
    rw [if_neg hoob]
  · intro st ref elems q v hget hin
    have hlt : ref < st.arrays.length := (List.getElem?_eq_some.mp hget).1
    refine ⟨{ st with arrays := st.arrays.set ref (elems.set (truncF q).toNat v) }, ?_, ?_⟩
    · simp only [assignMember, hget]
      rw [if_pos hin]
    · rw [List.getElem?_set_self (by simpa using hlt)]
      simp

/-- C3 witness: the out-of-bounds direction applied at index 5 of the
length-one array of stC3. -/
theorem C3_witness :
    assignMember stC3 (.arr 0) (.num (.q 5)) (.num (.q 9)) = .panic .indexOutOfRange :=
  C3_theorem.1 stC3 0 [.num (.q 1)] (.q 5) (.num (.q 9)) rfl (by decide)

/-! ## C4 -/

/-- C4: when the chain walk finds no binding (HasVar is false along the
same walk), LookupVar returns the undefined value rather than failing,
and evaluating an Identifier node for that name yields the undefined
value with no error. -/
theorem C4_theorem :
    ∀ (st : St) (e : Nat) (n : Str),
      (HasVar st e n = false → LookupVar st e n = .undef) ∧
      (∀ f : Nat, LookupVar st e n = .undef →
        exec (f + 1) (.ev (.ident n) e) st = .ok .undef st) := by
  intro st e n
  constructor
  · intro h
    exact hasChain_false_lookupChain st n (e + 1) (some e) h
  · intro f h
    simp only [exec]
    rw [h]

/-- C4 witness: the empty root state has no binding for y; lookup and
identifier evaluation both produce undefined. -/
theorem C4_witness :
    LookupVar rootSt 0 ['y'] = .undef ∧
    exec (2 + 1) (.ev (.ident ['y']) 0) rootSt = .ok .undef rootSt :=
  ⟨(C4_theorem rootSt 0 ['y']).1 rfl,
   (C4_theorem rootSt 0 ['y']).2 2 ((C4_theorem rootSt 0 ['y']).1 rfl)⟩

/-! ## C5 -/

/-- C5: isEqual is false whenever the type tags differ; numbers (on the
rational fragment), booleans and strings compare by underlying value;
null, undef and void are each self-equal; arrays and objects are always
unequal regardless of contents or even references; and the not-equal
operator of the equality expression returns the negation of isEqual. -/
theorem C5_theorem :
    (∀ a b : Value, typeName a ≠ typeName b → isEqual a b = false) ∧
    (∀ x y : ℚ, isEqual (.num (.q x)) (.num (.q y)) = decide (x = y)) ∧
    (∀ x y : Bool, isEqual (.bool x) (.bool y) = decide (x = y)) ∧
    (∀ x y : Str, isEqual (.str x) (.str y) = decide (x = y)) ∧
    (isEqual .null .null = true ∧ isEqual .undef .undef = true ∧
      isEqual .void .void = true) ∧
    (∀ r1 r2 : Nat, isEqual (.arr r1) (.arr r2) = false) ∧
    (∀ r1 r2 : Nat, isEqual (.obj r1) (.obj r2) = false) ∧
    (∀ l r : Value, equalityCase l r ['=', '='] = .ok (.bool (isEqual l r)) ∧
      equalityCase l r ['!', '='] = .ok (.bool (!isEqual l r))) := by
  refine ⟨?_, fun x y => rfl, fun x y => rfl, fun x y => rfl, ⟨rfl, rfl, rfl⟩,
    fun r1 r2 => rfl, fun r1 r2 => rfl, fun l r => ⟨rfl, rfl⟩⟩
  intro a b h
  cases a <;> cases b <;> first | rfl | exact absurd rfl h

/-- C5 witness: different tags applied at a number and a boolean. -/
theorem C5_witness : isEqual (.num (.q 1)) (.bool true) = false :=
  C5_theorem.1 (.num (.q 1)) (.bool true) (by simp [typeName])

/-! ## C6 -/

/-- C6: the if body runs in the enclosing environment - the declaration
it makes lands in that environment (no new environment is allocated) and
the name is visible there afterwards; a while body likewise declares
into the enclosing environment (concrete one-iteration loop, still one
environment at the end); a for statement allocates exactly one child of
the enclosing environment and its header declaration, its increment
target and its body declaration all land in that child, leaving the
enclosing environment without those names. -/
theorem C6_theorem :
    (∀ (f : Nat) (v : ℚ) (st : St) (e : Nat),
        exec (f + 8) (.ev (.ifStmt (.boolLit true)
          [.actionAssign (.ident ['x']) (.numLit (.q v)) ['v', 'a', 'r']] []) e) st =
          .ok (.num (.q v)) (DeclareVar st e ['x'] (.num (.q v)) false) ∧
        (DeclareVar st e ['x'] (.num (.q v)) false).envs.length = st.envs.length ∧
        (e < st.envs.length →
          LookupVar (DeclareVar st e ['x'] (.num (.q v)) false) e ['x'] = .num (.q v))) ∧
    (∀ v : ℚ, ∃ st2,
        exec 20 (.ev (.whileStmt (.ident ['b'])
          [.actionAssign (.ident ['x']) (.numLit (.q v)) ['v', 'a', 'r'],
           .assign (.ident ['b']) (.boolLit false)]) 0) stW = .ok (.bool false) st2 ∧
        LookupVar st2 0 ['x'] = .num (.q v) ∧ st2.envs.length = 1) ∧
    (∀ v : ℚ, ∃ st2,
        exec 30 (.ev (.forStmt
          (.actionAssign (.ident ['i']) (.numLit (.q 0)) ['v', 'a', 'r'])
          (.equality (.ident ['i']) (.numLit (.q 0)) ['=', '='])
          (.assign (.ident ['i']) (.numLit (.q 1)))
          [.actionAssign (.ident ['x']) (.numLit (.q v)) ['v', 'a', 'r']]) 0) rootSt =
          .ok (.num (.q v)) st2 ∧
        LookupVar st2 0 ['i'] = .undef ∧ LookupVar st2 0 ['x'] = .undef ∧
        st2.envs.length = 2 ∧ st2.envs[1]?.map Env.parent = some (some 0) ∧
        LookupVar st2 1 ['i'] = .num (.q 1) ∧ LookupVar st2 1 ['x'] = .num (.q v)) := by
  refine ⟨?_, ?_, ?_⟩
  · intro f v st e
    exact ⟨rfl, DeclareVar_envs_length st e ['x'] (.num (.q v)) false,
      fun he => LookupVar_DeclareVar_self st e ['x'] (.num (.q v)) false he⟩
  · intro v
    exact ⟨_, rfl, rfl, rfl⟩
  · intro v
    exact ⟨_, rfl, rfl, rfl, rfl, rfl, rfl, rfl⟩

/-- C6 witness: the if-body declaration is visible in the enclosing
(root) environment afterwards. -/
theorem C6_witness :
    LookupVar (DeclareVar rootSt 0 ['x'] (.num (.q 3)) false) 0 ['x'] = .num (.q 3) :=
  (C6_theorem.1 0 3 rootSt 0).2.2 (by simp [rootSt])

/-! ## C8 -/

/-- C8: tokenizing and parsing the doubly nested ternary source yields
the right-nested AST (condition at the top, the second ternary as the
alternate), the full pipeline evaluates it to the number 1, and ternary
evaluation takes only the selected branch: with a true condition an
arbitrary unevaluated alternate is never touched, and with a false
condition an arbitrary unevaluated consequent is never touched. -/
theorem C8_theorem :
    (∃ toks ps, Tokenize srcC8 = .ok toks ∧
        ProduceAST 64 toks = .n (.program [astC8]) ps) ∧
    LunaEvaluate 64 srcC8 = .res (.ok (.num (.q 1)) rootSt) ∧
    (∀ (f : Nat) (alt : Node) (e : Nat) (st : St),
        exec (f + 3) (.ev (.ternary (.boolLit true) (.numLit (.q 1)) alt) e) st =
          .ok (.num (.q 1)) st) ∧
    (∀ (f : Nat) (cons : Node) (e : Nat) (st : St),
        exec (f + 3) (.ev (.ternary (.boolLit false) cons (.numLit (.q 3))) e) st =
          .ok (.num (.q 3)) st) :=
  ⟨⟨_, _, rfl, rfl⟩, rfl, fun f alt e st => rfl, fun f cons e st => rfl⟩

/-! ## C9 -/

/-- C9: evaluating a string literal is the identity exactly on texts
without an opening brace; when the text contains a brace, each locally
bound name (here: the single local binding) has every occurrence of the
braced name replaced by its rendering (raw contents for strings, the
display string otherwise) via ReplaceAll, whose split-based spec proves
that the chunks between consecutive replaced occurrences never contain
the pattern (every occurrence is replaced); and a concrete interpolation
that is not the identity. -/
theorem C9_theorem :
    (∀ (f : Nat) (st : St) (e : Nat) (text : Str), hasInfix ['{'] text = false →
        exec (f + 1) (.ev (.strLit text) e) st = .ok (.str text) st) ∧
    (∀ (f : Nat) (st : St) (e : Nat) (n : Str) (v : Value) (env : Env) (text : Str),
        st.envs[e]? = some env → env.vars = [(n, v)] → hasInfix ['{'] text = true →
        exec (f + 1) (.ev (.strLit text) e) st =
          .ok (.str (replaceAll ('{' :: n ++ ['}']) (rawOrDisplay f st v) text)) st) ∧
    (∀ pat rep s : Str, pat ≠ [] →
        replaceAll pat rep s = joinSep rep (splitOn pat s) ∧
        joinSep pat (splitOn pat s) = s ∧
        ∀ c ∈ splitOn pat s, ¬ pat <:+: c) ∧
    (exec 5 (.ev (.strLit ['h', 'i', ' ', '{', 'x', '}']) 0) stI =
        .ok (.str ['h', 'i', ' ', 'B', 'o', 'b']) stI) := by
  refine ⟨?_, ?_, ?_, rfl⟩
  · intro f st e text h
    simp [exec, h]
  · intro f st e n v env text hget hvars hbrace
    simp only [exec]
    rw [if_pos hbrace]
    simp only [envVars, hget, hvars, interpolate, List.foldl]
    by_cases hp : hasInfix ('{' :: n ++ ['}']) text = true
    · rw [if_pos hp]
    · rw [if_neg hp,
        replaceAll_of_not_contains _ _ text (Bool.not_eq_true _ |>.mp hp)]
  · intro pat rep s hne
    exact ⟨rfl, splitOnAux_join pat (s.length + 1) s (by omega),
      fun c hc => splitOnAux_chunk_not_infix pat hne (s.length + 1) s (by omega) c hc⟩

/-- C9 witness: the single-binding interpolation applied at stI. -/
theorem C9_witness :
    exec (4 + 1) (.ev (.strLit ['h', 'i', ' ', '{', 'x', '}']) 0) stI =
      .ok (.str (replaceAll ('{' :: ['x'] ++ ['}'])
        (rawOrDisplay 4 stI (.str ['B', 'o', 'b'])) ['h', 'i', ' ', '{', 'x', '}'])) stI :=
  C9_theorem.2.1 4 stI 0 ['x'] (.str ['B', 'o', 'b'])
    ⟨none, [(['x'], .str ['B', 'o', 'b'])], []⟩ ['h', 'i', ' ', '{', 'x', '}'] rfl rfl rfl

/-! ## C10 -/

/-- C10: the Evaluate dispatch has no UseStatement case, so a use
statement falls to the default branch and returns the unsupported-AST-
node error, for the node itself and for any program reaching it. -/
theorem C10_theorem :
    (∀ (f : Nat) (p : Str) (e : Nat) (st : St),
        exec (f + 1) (.ev (.useStmt p) e) st = .err .unsupportedNode) ∧
    (∀ (f : Nat) (p : Str) (e : Nat) (st : St),
        exec (f + 4) (.ev (.program [.numLit (.q 1), .useStmt p]) e) st =
          .err .unsupportedNode) :=
  ⟨fun f p e st => rfl, fun f p e st => rfl⟩

/-! ## C7 -/

theorem advance_conserve (st : TkState) :
    (advance st).position + (advance st).rem.length = st.position + st.rem.length := by
  cases st with
  | mk rem l i p =>
      cases rem <;> simp [advance] <;> omega

theorem skipComment_conserve :
    ∀ (s : Str) (l i p : Nat),
      (skipComment s l i p).position + (skipComment s l i p).rem.length = p + s.length
  | [], l, i, p => by simp [skipComment]
  | c :: rest, l, i, p => by
      simp only [skipComment]
      split
      · simp
      · have h := skipComment_conserve rest l (i + 1) (p + 1)
        simp only [List.length_cons]
        omega

theorem readStringAux_conserve (quote : Char) :
    ∀ (esc : Bool) (s : Str) (l i p : Nat) (v : Str) (st2 : TkState),
      readStringAux quote esc s l i p = some (v, st2) →
      st2.position + st2.rem.length = p + s.length
  | esc, [], l, i, p, v, st2 => by simp [readStringAux]
  | esc, c :: rest, l, i, p, v, st2 => by
      intro h
      simp only [readStringAux] at h
      split at h
      · obtain ⟨⟨v1, stx⟩, hrec, heq⟩ := Option.map_eq_some'.mp h
        cases heq
        have := readStringAux_conserve quote false rest l (i + 1) (p + 1) v1 stx hrec
        simp only [List.length_cons]
        omega
      · split at h
        · have := readStringAux_conserve quote true rest l (i + 1) (p + 1) v st2 h
          simp only [List.length_cons]
          omega
        · split at h
          · cases h
            simp only [List.length_cons]
            omega
          · obtain ⟨⟨v1, stx⟩, hrec, heq⟩ := Option.map_eq_some'.mp h
            cases heq
            have := readStringAux_conserve quote false rest l (i + 1) (p + 1) v1 stx hrec
            simp only [List.length_cons]
            omega

theorem readNumberAux_conserve :
    ∀ (fl : Bool) (s : Str) (l i p : Nat),
      (readNumberAux fl s l i p).2.2.position + (readNumberAux fl s l i p).2.2.rem.length
        = p + s.length
  | fl, [], l, i, p => by simp [readNumberAux]
  | fl, c :: rest, l, i, p => by
      simp only [readNumberAux]
      split
      · split
        · simp
        · have := readNumberAux_conserve (if c = '.' then true else fl) rest l (i + 1) (p + 1)
          simp only [List.length_cons]
          omega
      · simp

theorem readIdentifierAux_conserve :
    ∀ (s : Str) (l i p : Nat),
      (readIdentifierAux s l i p).2.position + (readIdentifierAux s l i p).2.rem.length
        = p + s.length
  | [], l, i, p => by simp [readIdentifierAux]
  | c :: rest, l, i, p => by
      simp only [readIdentifierAux]
      split
      · have := readIdentifierAux_conserve rest l (i + 1) (p + 1)
        simp only [List.length_cons]
        omega
      · simp

theorem readOperatorAux_conserve :
    ∀ (acc : Str) (s : Str) (l i p : Nat),
      (readOperatorAux acc s l i p).2.position + (readOperatorAux acc s l i p).2.rem.length
        = p + s.length
  | acc, [], l, i, p => by simp [readOperatorAux]
  | acc, c :: rest, l, i, p => by
      simp only [readOperatorAux]
      split
      · split
        · simp only [List.length_cons]
          omega
        · have := readOperatorAux_conserve (acc ++ [c]) rest l (i + 1) (p + 1)
          simp only [List.length_cons]
          omega
      · simp

theorem keywordType_ne_eof (s : Str) : keywordType s ≠ .eof := by
  unfold keywordType
  cases hf : keywords.find? (fun p => p.1 = s) with
  | none => exact fun h => TokType.noConfusion h
  | some p =>
      have hm := List.mem_of_find?_eq_some hf
      have hall : ∀ q ∈ keywords, q.2 ≠ TokType.eof := by decide
      exact hall p hm

theorem getOperatorType_ne_eof (op : Str) : getOperatorType op ≠ .eof := by
  unfold getOperatorType
  cases hf : operatorTypes.find? (fun p => p.1 = op) with
  | none => exact fun h => TokType.noConfusion h
  | some p =>
      have hm := List.mem_of_find?_eq_some hf
      have hall : ∀ q ∈ operatorTypes, q.2 ≠ TokType.eof := by decide
      exact hall p hm

theorem tokenizeStep_conserve (c : Char) (rest : Str) (l i p : Nat) (t? : Option Token)
    (st2 : TkState) (h : tokenizeStep c rest l i p = .ok (t?, st2)) :
    st2.position + st2.rem.length = p + (c :: rest).length := by
  unfold tokenizeStep at h
  cases hk : charKind c with
  | newlineC =>
      simp only [hk] at h
      cases h
      have := advance_conserve ⟨c :: rest, l + 1, 0, p⟩
      simpa using this
  | spaceC =>
      simp only [hk] at h
      cases h
      have := advance_conserve ⟨c :: rest, l, i, p⟩
      simpa using this
  | commentC =>
      simp only [hk] at h
      cases h
      exact skipComment_conserve (c :: rest) l i p
  | quoteC =>
      simp only [hk] at h
      cases hr : readStringAux c false rest l (i + 1) (p + 1) with
      | none => simp only [hr] at h; exact Except.noConfusion h
      | some r =>
          simp only [hr] at h
          cases h
          have := readStringAux_conserve c false rest l (i + 1) (p + 1) r.1 r.2 (by
            rw [hr])
          simp only [List.length_cons]
          omega
  | digitC =>
      simp only [hk] at h
      cases h
      exact readNumberAux_conserve false (c :: rest) l i p
  | letterC =>
      simp only [hk] at h
      cases h
      exact readIdentifierAux_conserve (c :: rest) l i p
  | punctC =>
      simp only [hk] at h
      cases h
      have := advance_conserve ⟨c :: rest, l, i, p⟩
      simpa using this
  | operatorC =>
      simp only [hk] at h
      cases h
      exact readOperatorAux_conserve [] (c :: rest) l i p
  | badC => simp only [hk] at h; exact Except.noConfusion h

theorem tokenizeStep_not_eof (c : Char) (rest : Str) (l i p : Nat) (tok : Token)
    (st2 : TkState) (h : tokenizeStep c rest l i p = .ok (some tok, st2)) :
    tok.type ≠ .eof := by
  unfold tokenizeStep at h
  cases hk : charKind c with
  | newlineC => simp only [hk] at h; cases h; simp
  | spaceC => simp only [hk] at h; simp at h
  | commentC => simp only [hk] at h; simp at h
  | quoteC =>
      simp only [hk] at h
      cases hr : readStringAux c false rest l (i + 1) (p + 1) with
      | none => simp only [hr] at h; exact Except.noConfusion h
      | some r => simp only [hr] at h; cases h; simp
  | digitC =>
      simp only [hk] at h
      cases h
      split <;> simp
  | letterC =>
      simp only [hk] at h
      cases h
      exact keywordType_ne_eof _
  | punctC =>
      simp only [hk] at h
      cases h
      unfold punctType
      cases hf : punctTypes.find? (fun p => p.1 = c) with
      | none => exact fun h2 => TokType.noConfusion h2
      | some p =>
          have hm := List.mem_of_find?_eq_some hf
          have hall : ∀ q ∈ punctTypes, q.2 ≠ TokType.eof := by decide
          exact hall p hm
  | operatorC =>
      simp only [hk] at h
      cases h
      exact getOperatorType_ne_eof _
  | badC => simp only [hk] at h; exact Except.noConfusion h

theorem tokenizeAux_ends_eof :
    ∀ (fuel : Nat) (st : TkState) (toks : List Token),
      tokenizeAux fuel st = .ok toks →
      ∃ mid lastTok, toks = mid ++ [lastTok] ∧ lastTok.type = .eof ∧
        lastTok.pos.index = st.position + st.rem.length ∧
        ∀ t ∈ mid, t.type ≠ .eof
  | 0, st, toks => by intro h; exact Except.noConfusion h
  | fuel + 1, st, toks => by
      intro h
      simp only [tokenizeAux] at h
      cases hrem : st.rem with
      | nil =>
          simp only [hrem] at h
          cases h
          exact ⟨[], ⟨.eof, [], ⟨st.line, st.index, st.position⟩⟩, rfl, rfl,
            by simp [hrem], by simp⟩
      | cons c rest =>
          simp only [hrem] at h
          cases hstep : tokenizeStep c rest st.line st.index st.position with
          | error e => simp only [hstep] at h; exact Except.noConfusion h
          | ok pr =>
              obtain ⟨t?, st2⟩ := pr
              simp only [hstep] at h
              cases hrec : tokenizeAux fuel st2 with
              | error e => simp only [hrec] at h; exact Except.noConfusion h
              | ok toks2 =>
                  simp only [hrec] at h
                  obtain ⟨mid, lastT, hdec, heof, hidx, hmid⟩ :=
                    tokenizeAux_ends_eof fuel st2 toks2 hrec
                  have hcons :=
                    tokenizeStep_conserve c rest st.line st.index st.position t? st2 hstep
                  cases h
                  cases t? with
                  | none =>
                      refine ⟨mid, lastT, hdec, heof, ?_, hmid⟩
                      rw [hidx]
                      exact hcons
                  | some tok =>
                      refine ⟨tok :: mid, lastT, by simp [hdec], heof, ?_, ?_⟩
                      · rw [hidx]
                        exact hcons
                      · intro t ht
                        rcases List.mem_cons.mp ht with ht2 | ht2
                        · subst ht2
                          exact tokenizeStep_not_eof c rest st.line st.index st.position
                            t st2 hstep
                        · exact hmid t ht2

/-- C7: whenever tokenization succeeds, the token list ends with an
end-of-stream token, that token is the only end-of-stream token in the
list, and its position's absolute offset (the Index field) equals the
length of the input in runes. -/
theorem C7_theorem (input : Str) (toks : List Token) (h : Tokenize input = .ok toks) :
    ∃ mid lastTok, toks = mid ++ [lastTok] ∧ lastTok.type = .eof ∧
      lastTok.pos.index = input.length ∧ ∀ t ∈ mid, t.type ≠ .eof := by
  have := tokenizeAux_ends_eof (input.length + 1) ⟨input, 0, 0, 0⟩ toks h
  simpa using this

/-- C7 witness: the invariant applied to the concrete input x. -/
theorem C7_witness :
    ∃ mid lastTok,
      ([⟨.identifier, ['x'], ⟨0, 0, 0⟩⟩, ⟨.eof, [], ⟨0, 1, 1⟩⟩] : List Token) =
        mid ++ [lastTok] ∧ lastTok.type = .eof ∧
      lastTok.pos.index = (['x'] : Str).length ∧ ∀ t ∈ mid, t.type ≠ .eof :=
  C7_theorem ['x'] _ rfl

end Luna
